import Mathlib

/-!
# Verification of the smartcar Rust SDK against its specification

A shallow embedding, in Lean 4, of the parts of the `smartcar` Rust SDK that
the specification's claims are about:

* `src/webhooks.rs` — the webhook HMAC challenge hasher (with an executable
  SHA-256 / HMAC-SHA256, modelling the `sha2` / `hmac` crates);
* `src/lib.rs` — `Permission`, `ScopeBuilder`, `DeleteConnectionsFilters`,
  `delete_connections`;
* `src/permission.rs` — the older `Permissions` builder;
* `src/auth_client.rs` — `AuthClient`, `AuthUrlOptionsBuilder`, `get_auth_url`;
* `src/request.rs` — `SmartcarRequestBuilder::send` status classification;
* `src/error.rs` — the `Error` enum and `SmartcarError` shape;
* `src/response.rs` — the response DTO shapes and the untagged
  `SmartcarResponseBody` union used by batch responses;
* `src/vehicle.rs` — per-vehicle request URL construction (`lock`/`unlock`).

Rust `String` values are modelled as Lean `String` except in the
authorization-URL section, where the claims require character-level reasoning
and strings are modelled as `List Char`.  JSON documents are modelled by the
inductive `Json`; JSON numbers carry their decimal mantissa and a flag telling
whether the literal had a fractional/exponent part (which is what decides
`i32` vs `f32` acceptance in `serde_json`; no claim depends on float
arithmetic).
-/

set_option maxRecDepth 100000

namespace Smartcar

/-! ## Bytes, hex, SHA-256 and HMAC-SHA256

The `sha2` and `hmac` crates used by `src/webhooks.rs` are modelled by an
executable FIPS 180-4 SHA-256 and RFC 2104 HMAC over byte lists (`List Nat`,
each element < 256).  Words are `Nat` reduced modulo `2 ^ 32`.
-/

/-- UTF-8 encoding of one scalar value, as Rust's `str::as_bytes` produces. -/
def utf8Encode (c : Char) : List Nat :=
  let n := c.toNat
  if n < 0x80 then [n]
  else if n < 0x800 then
    [0xc0 ||| (n >>> 6), 0x80 ||| (n &&& 0x3f)]
  else if n < 0x10000 then
    [0xe0 ||| (n >>> 12), 0x80 ||| ((n >>> 6) &&& 0x3f), 0x80 ||| (n &&& 0x3f)]
  else
    [0xf0 ||| (n >>> 18), 0x80 ||| ((n >>> 12) &&& 0x3f),
     0x80 ||| ((n >>> 6) &&& 0x3f), 0x80 ||| (n &&& 0x3f)]

/-- The bytes of a Rust string (`str::as_bytes`). -/
def strBytes (s : String) : List Nat :=
  s.data.flatMap utf8Encode

/-- The modulus for 32-bit words, `2 ^ 32`. -/
def w32 : Nat := 4294967296

/-- Rotate a 32-bit word right by `n`. -/
def rotr (n x : Nat) : Nat :=
  ((x >>> n) ||| (x <<< (32 - n))) % w32

/-- SHA-256 `Ch`. -/
def shaCh (x y z : Nat) : Nat := (x &&& y) ^^^ ((x ^^^ 0xffffffff) &&& z)

/-- SHA-256 `Maj`. -/
def shaMaj (x y z : Nat) : Nat := (x &&& y) ^^^ (x &&& z) ^^^ (y &&& z)

/-- SHA-256 big sigma 0. -/
def bsig0 (x : Nat) : Nat := rotr 2 x ^^^ rotr 13 x ^^^ rotr 22 x

/-- SHA-256 big sigma 1. -/
def bsig1 (x : Nat) : Nat := rotr 6 x ^^^ rotr 11 x ^^^ rotr 25 x

/-- SHA-256 small sigma 0. -/
def ssig0 (x : Nat) : Nat := rotr 7 x ^^^ rotr 18 x ^^^ (x >>> 3)

/-- SHA-256 small sigma 1. -/
def ssig1 (x : Nat) : Nat := rotr 17 x ^^^ rotr 19 x ^^^ (x >>> 10)

/-- SHA-256 round constants (FIPS 180-4), written in decimal; the test
vectors further down pin the whole construction against FIPS and RFC 4231
outputs. -/
def shaK : List Nat := [
  1116352408, 1899447441, 3049323471, 3921009573,
  961987163, 1508970993, 2453635748, 2870763221,
  3624381080, 310598401, 607225278, 1426881987,
  1925078388, 2162078206, 2614888103, 3248222580,
  3835390401, 4022224774, 264347078, 604807628,
  770255983, 1249150122, 1555081692, 1996064986,
  2554220882, 2821834349, 2952996808, 3210313671,
  3336571891, 3584528711, 113926993, 338241895,
  666307205, 773529912, 1294757372, 1396182291,
  1695183700, 1986661051, 2177026350, 2456956037,
  2730485921, 2820302411, 3259730800, 3345764771,
  3516065817, 3600352804, 4094571909, 275423344,
  430227734, 506948616, 659060556, 883997877,
  958139571, 1322822218, 1537002063, 1747873779,
  1955562222, 2024104815, 2227730452, 2361852424,
  2428436474, 2756734187, 3204031479, 3329325298
]

/-- SHA-256 initial hash value (FIPS 180-4), in decimal. -/
def shaH0 : List Nat := [
  1779033703, 3144134277, 1013904242, 2773480762,
  1359893119, 2600822924, 528734635, 1541459225
]

/-- Big-endian encoding of the second argument in as many bytes as the first. -/
def beBytes : Nat → Nat → List Nat
  | 0, _ => []
  | k + 1, v => beBytes k (v >>> 8) ++ [v % 256]

/-- SHA-256 message padding: a `0x80` byte, zeros, and the 64-bit bit length. -/
def padBytes (msg : List Nat) : List Nat :=
  let len := msg.length
  let zeros := (119 - (len % 64)) % 64
  msg ++ 0x80 :: (List.replicate zeros 0 ++ beBytes 8 (len * 8))

/-- Big-endian 32-bit words of a byte list. -/
def toWords : List Nat → List Nat
  | a :: b :: c :: d :: rest => (((a * 256 + b) * 256 + c) * 256 + d) :: toWords rest
  | _ => []

/-- The 64-entry SHA-256 message schedule of a 16-word block. -/
def schedule (block : List Nat) : List Nat :=
  (List.range 48).foldl
    (fun w t =>
      w ++ [(ssig1 (w.getD (t + 14) 0) + w.getD (t + 9) 0 +
             ssig0 (w.getD (t + 1) 0) + w.getD t 0) % w32])
    block

/-- One SHA-256 round on the working variables `[a,b,c,d,e,f,g,h]`. -/
def roundStep (st : List Nat) (kw : Nat × Nat) : List Nat :=
  match st with
  | [a, b, c, d, e, f, g, h] =>
    let t1 := (h + bsig1 e + shaCh e f g + kw.1 + kw.2) % w32
    let t2 := (bsig0 a + shaMaj a b c) % w32
    [(t1 + t2) % w32, a, b, c, (d + t1) % w32, e, f, g]
  | other => other

/-- SHA-256 compression of one 16-word block into the chaining value. -/
def compressBlock (h : List Nat) (block : List Nat) : List Nat :=
  let st := (shaK.zip (schedule block)).foldl roundStep h
  (h.zip st).map (fun p => (p.1 + p.2) % w32)

/-- SHA-256 of a byte list, as 32 digest bytes. -/
def sha256 (msg : List Nat) : List Nat :=
  let ws := toWords (padBytes msg)
  let hFin := (List.range (ws.length / 16)).foldl
    (fun h i => compressBlock h ((ws.drop (16 * i)).take 16)) shaH0
  hFin.flatMap (beBytes 4)

/-- HMAC-SHA256 (RFC 2104, block size 64).  Every key length is accepted:
keys longer than one block are first hashed, shorter keys are zero-padded. -/
def hmacSha256 (key msg : List Nat) : List Nat :=
  let k0 := if 64 < key.length then sha256 key else key
  let kp := k0 ++ List.replicate (64 - k0.length) 0
  sha256 ((kp.map (fun b => b ^^^ 0x5c)) ++ sha256 ((kp.map (fun b => b ^^^ 0x36)) ++ msg))

/-- Lowercase hex digit. -/
def hexDigit (n : Nat) : Char :=
  "0123456789abcdef".toList.getD n '0'

/-- Lowercase hex encoding of a byte list (the `hex::encode` of the `hex` crate). -/
def hexEncode (bytes : List Nat) : String :=
  ⟨bytes.flatMap (fun b => [hexDigit (b / 16), hexDigit (b % 16)])⟩

/-! ## Error model — `src/error.rs`

The `Error` enum of `src/error.rs`.  The payloads of the wrapped external
errors (`reqwest::Error`, `serde_json::Error`, `hmac::digest::InvalidLength`)
are modelled by their observable kind only.
-/

/-- A detailed error response from Smartcar API (`SmartcarError` in
`src/error.rs`), with its serde renames `type`, `docURL`, `statusCode`,
`requestId` applied at (de)serialization time. -/
structure SmartcarError where
  error_type : String
  code : Option String
  description : String
  doc_url : String
  status_code : Int
  resolution : List (String × Option String)
  request_id : String
deriving DecidableEq

/-- The kinds of a `reqwest::Error`: a transport failure, or a body-decode
failure produced by `Response::json` when deserialization of the body fails. -/
inductive ReqwestError where
  | transport
  | decode
deriving DecidableEq

/-- All potential errors of the library (`Error` in `src/error.rs`). -/
inductive Error where
  | SdkReqwestFailure (e : ReqwestError)
  | SdkSerdeFailure
  | SdkHmacInvalidLength
  | MissingParameters (msg : String)
  | SmartcarError (e : SmartcarError)
  | DeleteConnectionsFilterValidationError
deriving DecidableEq

/-! ## Webhooks — `src/webhooks.rs` -/

/-- Generate hash challenge for webhooks (`hash_challenge` in
`src/webhooks.rs`).  The source keys the MAC with the challenge bytes
(`HmacSha256::new_from_slice(challenge.as_bytes())`) and feeds the `amt`
bytes as the message (`mac.update(amt.as_bytes())`).  `Hmac` accepts every
key length, so the `InvalidLength` error path never triggers. -/
def hash_challenge (amt challenge : String) : Except Error String :=
  .ok (hexEncode (hmacSha256 (strBytes challenge) (strBytes amt)))

/-- Verify webhook payload with AMT and signature (`verify_payload` in
`src/webhooks.rs`). -/
def verify_payload (amt signature body : String) : Except Error Bool :=
  (hash_challenge amt body).map (fun h => h == signature)

/-- Reading of the specification's words for claim C1, to be compared with
`hash_challenge`: an HMAC-SHA256 digest computed over the challenge bytes,
using the secret bytes as the HMAC key, hex-encoded lowercase. -/
def hash_challenge_spec (secret challenge : String) : String :=
  hexEncode (hmacSha256 (strBytes secret) (strBytes challenge))

/-! ## JSON values and serde-style deserialization

JSON documents as `serde_json` sees them.  A number carries its decimal
mantissa and a flag recording whether the literal had a fractional or
exponent part: `serde_json` deserializes any number into an `f32` field but
only an in-range integer literal into an `i32` field.  Objects keep their
field order; lookup takes the first occurrence of a key.
-/

/-- A JSON number literal: mantissa and whether the literal was fractional. -/
structure JsonNum where
  mant : Int
  flt : Bool
deriving DecidableEq

/-- A JSON document. -/
inductive Json where
  | null
  | bool (b : Bool)
  | num (n : JsonNum)
  | str (s : String)
  | arr (elems : List Json)
  | obj (fields : List (String × Json))

/-- First value stored under a key in a JSON object. -/
def getField (fields : List (String × Json)) (k : String) : Option Json :=
  (fields.find? (fun p => p.1 == k)).map (fun p => p.2)

/-- Deserialize an `f32` field: any JSON number is accepted. -/
def asF32 : Json → Option JsonNum
  | .num n => some n
  | _ => none

/-- Deserialize an `i32` field: an integer literal in `i32` range. -/
def asI32 : Json → Option Int
  | .num n =>
    if n.flt then none
    else if -2147483648 ≤ n.mant ∧ n.mant < 2147483648 then some n.mant else none
  | _ => none

/-- Deserialize a `String` field. -/
def asString : Json → Option String
  | .str s => some s
  | _ => none

/-- Deserialize a `bool` field. -/
def asBool : Json → Option Bool
  | .bool b => some b
  | _ => none

/-- Deserialize an `Option<String>` value: `null` is `None`. -/
def asOptString : Json → Option (Option String)
  | .null => some none
  | .str s => some (some s)
  | _ => none

/-- Deserialize an `Option<String>` struct field: a missing field is `None`. -/
def getOptStringField (fields : List (String × Json)) (k : String) : Option (Option String) :=
  match getField fields k with
  | none => some none
  | some j => asOptString j

/-- Deserialize every element of a list, failing when any element fails (the
sequencing serde uses for maps and sequences). -/
def optMapAll (f : α → Option β) : List α → Option (List β)
  | [] => some []
  | x :: rest => do
    let y ← f x
    let ys ← optMapAll f rest
    some (y :: ys)

/-- Deserialize a `HashMap<String, Option<String>>` field. -/
def asStrOptMap : Json → Option (List (String × Option String))
  | .obj fs => optMapAll (fun p => (asOptString p.2).map (fun v => (p.1, v))) fs
  | _ => none

/-- Deserialize a `Vec<String>` field. -/
def asStringList : Json → Option (List String)
  | .arr xs => optMapAll asString xs
  | _ => none

/-! ## Response DTO shapes — `src/response.rs`

The shapes of the derived `Deserialize` impls, with the `rename_all =
"camelCase"` and `rename` attributes applied.  Unknown JSON fields are
ignored (no `deny_unknown_fields` anywhere in the source).
-/

/-- Paging metadata (`Paging` in `src/response.rs`). -/
structure Paging where
  count : Int
  offset : Int
deriving DecidableEq

/-- Granted application permissions (`ApplicationPermissions`). -/
structure ApplicationPermissions where
  permissions : List String
  paging : Paging
deriving DecidableEq

/-- Engine oil life (`EngineOilLife`, field serialized as `lifeRemaining`). -/
structure EngineOilLife where
  life_remaining : JsonNum
deriving DecidableEq

/-- Battery capacity (`BatteryCapacity`). -/
structure BatteryCapacity where
  capacity : JsonNum
deriving DecidableEq

/-- Battery level (`BatteryLevel`, camelCase fields). -/
structure BatteryLevel where
  percent_remaining : JsonNum
  range : JsonNum
deriving DecidableEq

/-- Charging status (`ChargingStatus`, camelCase fields). -/
structure ChargingStatus where
  is_plugged_in : Bool
  state : String
deriving DecidableEq

/-- Charge limit (`ChargeLimit`). -/
structure ChargeLimit where
  limit : JsonNum
deriving DecidableEq

/-- Fuel tank status (`FuelTank`, camelCase fields). -/
structure FuelTank where
  range : JsonNum
  percent_remaining : JsonNum
  amount_remaining : JsonNum
deriving DecidableEq

/-- Location (`Location`). -/
structure Location where
  latitude : JsonNum
  longitude : JsonNum
deriving DecidableEq

/-- Open state of a door, window, etc. (`OpenStatus`, field `type`). -/
structure OpenStatus where
  _type : String
  status : String
deriving DecidableEq

/-- Lock status (`LockStatus`, camelCase fields). -/
structure LockStatus where
  is_locked : Bool
  doors : List OpenStatus
  windows : List OpenStatus
  sunroof : List OpenStatus
  storage : List OpenStatus
  charging_port : List OpenStatus
deriving DecidableEq

/-- Odometer reading (`Odometer`). -/
structure Odometer where
  distance : JsonNum
deriving DecidableEq

/-- Tire pressures (`TirePressure`, camelCase fields). -/
structure TirePressure where
  front_left : JsonNum
  front_right : JsonNum
  back_left : JsonNum
  back_right : JsonNum
deriving DecidableEq

/-- Vehicle attributes (`VehicleAttributes`). -/
structure VehicleAttributes where
  id : String
  make : String
  model : String
  year : Int
deriving DecidableEq

/-- Manufacturer identifier (`Vin`). -/
structure Vin where
  vin : String
deriving DecidableEq

/-- Deserializer for `Paging`. -/
def deserPaging : Json → Option Paging
  | .obj fs => do
    let c ← asI32 (← getField fs "count")
    let o ← asI32 (← getField fs "offset")
    some ⟨c, o⟩
  | _ => none

/-- Deserializer for `ApplicationPermissions`. -/
def deserApplicationPermissions : Json → Option ApplicationPermissions
  | .obj fs => do
    let ps ← asStringList (← getField fs "permissions")
    let pg ← deserPaging (← getField fs "paging")
    some ⟨ps, pg⟩
  | _ => none

/-- Deserializer for `EngineOilLife`. -/
def deserEngineOilLife : Json → Option EngineOilLife
  | .obj fs => do
    let x ← asF32 (← getField fs "lifeRemaining")
    some ⟨x⟩
  | _ => none

/-- Deserializer for `BatteryCapacity`. -/
def deserBatteryCapacity : Json → Option BatteryCapacity
  | .obj fs => do
    let x ← asF32 (← getField fs "capacity")
    some ⟨x⟩
  | _ => none

/-- Deserializer for `BatteryLevel`. -/
def deserBatteryLevel : Json → Option BatteryLevel
  | .obj fs => do
    let p ← asF32 (← getField fs "percentRemaining")
    let r ← asF32 (← getField fs "range")
    some ⟨p, r⟩
  | _ => none

/-- Deserializer for `ChargingStatus`. -/
def deserChargingStatus : Json → Option ChargingStatus
  | .obj fs => do
    let p ← asBool (← getField fs "isPluggedIn")
    let st ← asString (← getField fs "state")
    some ⟨p, st⟩
  | _ => none

/-- Deserializer for `ChargeLimit`. -/
def deserChargeLimit : Json → Option ChargeLimit
  | .obj fs => do
    let l ← asF32 (← getField fs "limit")
    some ⟨l⟩
  | _ => none

/-- Deserializer for `FuelTank`. -/
def deserFuelTank : Json → Option FuelTank
  | .obj fs => do
    let r ← asF32 (← getField fs "range")
    let p ← asF32 (← getField fs "percentRemaining")
    let a ← asF32 (← getField fs "amountRemaining")
    some ⟨r, p, a⟩
  | _ => none

/-- Deserializer for `Location`. -/
def deserLocation : Json → Option Location
  | .obj fs => do
    let la ← asF32 (← getField fs "latitude")
    let lo ← asF32 (← getField fs "longitude")
    some ⟨la, lo⟩
  | _ => none

/-- Deserializer for `OpenStatus`. -/
def deserOpenStatus : Json → Option OpenStatus
  | .obj fs => do
    let t ← asString (← getField fs "type")
    let st ← asString (← getField fs "status")
    some ⟨t, st⟩
  | _ => none

/-- Deserializer for a `Vec<OpenStatus>` field. -/
def asOpenStatusList : Json → Option (List OpenStatus)
  | .arr xs => optMapAll deserOpenStatus xs
  | _ => none

/-- Deserializer for `LockStatus`. -/
def deserLockStatus : Json → Option LockStatus
  | .obj fs => do
    let l ← asBool (← getField fs "isLocked")
    let d ← asOpenStatusList (← getField fs "doors")
    let w ← asOpenStatusList (← getField fs "windows")
    let sn ← asOpenStatusList (← getField fs "sunroof")
    let st ← asOpenStatusList (← getField fs "storage")
    let cp ← asOpenStatusList (← getField fs "chargingPort")
    some ⟨l, d, w, sn, st, cp⟩
  | _ => none

/-- Deserializer for `Odometer`. -/
def deserOdometer : Json → Option Odometer
  | .obj fs => do
    let d ← asF32 (← getField fs "distance")
    some ⟨d⟩
  | _ => none

/-- Deserializer for `TirePressure`. -/
def deserTirePressure : Json → Option TirePressure
  | .obj fs => do
    let fl ← asF32 (← getField fs "frontLeft")
    let fr ← asF32 (← getField fs "frontRight")
    let bl ← asF32 (← getField fs "backLeft")
    let br ← asF32 (← getField fs "backRight")
    some ⟨fl, fr, bl, br⟩
  | _ => none

/-- Deserializer for `VehicleAttributes`. -/
def deserVehicleAttributes : Json → Option VehicleAttributes
  | .obj fs => do
    let i ← asString (← getField fs "id")
    let mk ← asString (← getField fs "make")
    let mo ← asString (← getField fs "model")
    let y ← asI32 (← getField fs "year")
    some ⟨i, mk, mo, y⟩
  | _ => none

/-- Deserializer for `Vin`. -/
def deserVin : Json → Option Vin
  | .obj fs => do
    let v ← asString (← getField fs "vin")
    some ⟨v⟩
  | _ => none

/-- Deserializer for `SmartcarError` (serde renames `type`, `docURL`,
`statusCode`, `requestId`; `code` is an `Option<String>` field). -/
def deserSmartcarError : Json → Option SmartcarError
  | .obj fs => do
    let t ← asString (← getField fs "type")
    let c ← getOptStringField fs "code"
    let d ← asString (← getField fs "description")
    let u ← asString (← getField fs "docURL")
    let sc ← asI32 (← getField fs "statusCode")
    let res ← asStrOptMap (← getField fs "resolution")
    let rid ← asString (← getField fs "requestId")
    some ⟨t, c, d, u, sc, res, rid⟩
  | _ => none

/-- The response body of a single endpoint in a batch request
(`SmartcarResponseBody` in `src/response.rs`, an untagged serde union). -/
inductive SmartcarResponseBody where
  | ApplicationPermissions (v : ApplicationPermissions)
  | BatteryCapacity (v : BatteryCapacity)
  | BatteryLevel (v : BatteryLevel)
  | ChargeLimit (v : ChargeLimit)
  | ChargingStatus (v : ChargingStatus)
  | EngineOilLife (v : EngineOilLife)
  | FuelTank (v : FuelTank)
  | Location (v : Location)
  | LockStatus (v : LockStatus)
  | Odometer (v : Odometer)
  | TirePressure (v : TirePressure)
  | VehicleAttributes (v : VehicleAttributes)
  | Vin (v : Vin)
  | SmartcarError (v : SmartcarError)
deriving DecidableEq

/-- Deserializer for the untagged `SmartcarResponseBody` union: serde tries
the variants in declaration order and keeps the first success.  The order
below mirrors `src/response.rs` lines 326–349; `SmartcarError` is the last
variant there. -/
def deserSmartcarResponseBody (j : Json) : Option SmartcarResponseBody :=
  ((deserApplicationPermissions j).map .ApplicationPermissions) <|>
  ((deserBatteryCapacity j).map .BatteryCapacity) <|>
  ((deserBatteryLevel j).map .BatteryLevel) <|>
  ((deserChargeLimit j).map .ChargeLimit) <|>
  ((deserChargingStatus j).map .ChargingStatus) <|>
  ((deserEngineOilLife j).map .EngineOilLife) <|>
  ((deserFuelTank j).map .FuelTank) <|>
  ((deserLocation j).map .Location) <|>
  ((deserLockStatus j).map .LockStatus) <|>
  ((deserOdometer j).map .Odometer) <|>
  ((deserTirePressure j).map .TirePressure) <|>
  ((deserVehicleAttributes j).map .VehicleAttributes) <|>
  ((deserVin j).map .Vin) <|>
  ((deserSmartcarError j).map .SmartcarError)

/-! ## Response metadata — `src/response/meta.rs` -/

/-- A parsed UTC timestamp (the `DateTime<Utc>` produced by chrono's
`datetime_from_str` with format `%Y-%m-%dT%H:%M:%S%.3fZ`). -/
structure DateTimeUtc where
  year : Nat
  month : Nat
  day : Nat
  hour : Nat
  minute : Nat
  second : Nat
  millis : Nat
deriving DecidableEq

/-- Numeric value of a decimal digit character, if it is one. -/
def digitVal (c : Char) : Option Nat :=
  if '0' ≤ c ∧ c ≤ '9' then some (c.toNat - 48) else none

/-- Parse of an `SC-Data-Age` header against chrono's
`%Y-%m-%dT%H:%M:%S%.3fZ` format (e.g. `2022-09-05T19:57:31.037Z`), with
field-range validation.  Chrono's full calendar validation (month lengths,
leap days) is abstracted to range checks; no claim depends on it. -/
def parseDataAge (s : String) : Option DateTimeUtc :=
  match s.data with
  | [y1, y2, y3, y4, '-', m1, m2, '-', d1, d2, 'T',
     h1, h2, ':', i1, i2, ':', s1, s2, '.', f1, f2, f3, 'Z'] => do
    let yv ← do
      let a ← digitVal y1
      let b ← digitVal y2
      let c ← digitVal y3
      let d ← digitVal y4
      some (((a * 10 + b) * 10 + c) * 10 + d)
    let two := fun (x y : Char) => do
      let a ← digitVal x
      let b ← digitVal y
      some (a * 10 + b)
    let mv ← two m1 m2
    let dv ← two d1 d2
    let hv ← two h1 h2
    let iv ← two i1 i2
    let sv ← two s1 s2
    let fv ← do
      let a ← digitVal f1
      let b ← digitVal f2
      let c ← digitVal f3
      some ((a * 10 + b) * 10 + c)
    if 1 ≤ mv ∧ mv ≤ 12 ∧ 1 ≤ dv ∧ dv ≤ 31 ∧ hv ≤ 23 ∧ iv ≤ 59 ∧ sv ≤ 59 then
      some ⟨yv, mv, dv, hv, iv, sv, fv⟩
    else none
  | _ => none

/-- Smartcar response-header metadata (`Meta` in `src/response/meta.rs`). -/
structure Meta where
  data_age : Option DateTimeUtc
  request_id : Option String
  unit_system : Option String
deriving DecidableEq

/-- ASCII-lowercase a string, as reqwest's `HeaderMap` does to header names. -/
def lowerAscii (s : String) : String :=
  ⟨s.data.map (fun c => if 'A' ≤ c ∧ c ≤ 'Z' then Char.ofNat (c.toNat + 32) else c)⟩

/-- Case-insensitive header lookup (`HeaderMap::get`). -/
def headerGet (hs : List (String × String)) (k : String) : Option String :=
  (hs.find? (fun p => lowerAscii p.1 == lowerAscii k)).map (fun p => p.2)

/-- Header metadata extraction (`generate_meta_from_headers` in
`src/response/meta.rs`): a data-age parse failure is swallowed, leaving the
field absent. -/
def generate_meta_from_headers (hs : List (String × String)) : Meta :=
  { data_age := (headerGet hs "SC-Data-Age").bind parseDataAge
    request_id := (headerGet hs "SC-Request-Id")
    unit_system := (headerGet hs "SC-Unit-System") }

/-! ## Request sending — `src/request.rs`

The transport is factored out: `SmartcarRequestBuilder.send` is modelled
from the point where the HTTP response has arrived (a transport failure
before that surfaces as `Error.SdkReqwestFailure ReqwestError.transport`
through the first `?` of the source and involves no body).  The response
body is kept as parsed JSON; `Response::json::<SmartcarError>` either
succeeds or produces a `reqwest` decode error, which the `?` converts into
`Error::SdkReqwestFailure` via the `#[from]` conversion in `src/error.rs`.
-/

/-- An HTTP response: status code, headers, JSON body. -/
structure HttpResponse where
  status : Nat
  headers : List (String × String)
  body : Json

/-- Model of `Response::json::<SmartcarError>()`: a failed deserialization
is a `reqwest` decode error. -/
def responseJsonSmartcarError (r : HttpResponse) : Except ReqwestError SmartcarError :=
  match deserSmartcarError r.body with
  | some e => .ok e
  | none => .error .decode

namespace SmartcarRequestBuilder

/-- Status classification of `SmartcarRequestBuilder::send` (`src/request.rs`
lines 101–112): a 200 response yields the response plus header metadata; any
other status is deserialized as a `SmartcarError`, and the `?` on that
deserialization turns its failure into `Error::SdkReqwestFailure`. -/
def send (r : HttpResponse) : Except Error (HttpResponse × Meta) :=
  if r.status ≠ 200 then
    match responseJsonSmartcarError r with
    | .ok sc_err => .error (.SmartcarError sc_err)
    | .error e => .error (.SdkReqwestFailure e)
  else
    .ok (r, generate_meta_from_headers r.headers)

end SmartcarRequestBuilder

/-! ## Permissions and the scope builder — `src/lib.rs`

Strings in this and the following authorization-URL section are modelled as
`List Char` (`Chars`), because the claims over them are character-level.
-/

/-- Rust strings, character by character. -/
abbrev Chars := List Char

/-- A permission requested during Smartcar Connect (`Permission` in
`src/lib.rs` lines 253–278). -/
inductive Permission where
  | ControlCharge
  | ControlSecurity
  | ReadBattery
  | ReadCharge
  | ReadEngineOil
  | ReadFuel
  | ReadLocation
  | ReadOdometer
  | ReadSecurity
  | ReadTires
  | ReadVehicleInfo
  | ReadVin
  | ControlClimate
  | ReadChargeEvents
  | ReadChargeLocations
  | ReadChargeRecords
  | ReadClimate
  | ReadCompass
  | ReadExtendedVehicleInfo
  | ReadSpeedeomter
  | ReadThermometer
deriving DecidableEq

/-- The canonical scope token of a permission (`Permission::as_str`). -/
def Permission.as_str : Permission → Chars
  | .ControlCharge => "control_charge".toList
  | .ControlClimate => "control_climate".toList
  | .ControlSecurity => "control_security".toList
  | .ReadBattery => "read_battery".toList
  | .ReadCharge => "read_charge".toList
  | .ReadChargeEvents => "read_charge_events".toList
  | .ReadChargeLocations => "read_charge_locations".toList
  | .ReadChargeRecords => "read_charge_records".toList
  | .ReadClimate => "read_climate".toList
  | .ReadCompass => "read_compass".toList
  | .ReadEngineOil => "read_engine_oil".toList
  | .ReadExtendedVehicleInfo => "read_extended_vehicle_info".toList
  | .ReadFuel => "read_fuel".toList
  | .ReadLocation => "read_location".toList
  | .ReadOdometer => "read_odometer".toList
  | .ReadSecurity => "read_security".toList
  | .ReadSpeedeomter => "read_speedometer".toList
  | .ReadThermometer => "read_thermometer".toList
  | .ReadTires => "read_tires".toList
  | .ReadVehicleInfo => "read_vehicle_info".toList
  | .ReadVin => "read_vin".toList

/-- Builder of a list of permissions (`ScopeBuilder` in `src/lib.rs`).  The
`HashSet<Permission>` is modelled as a duplicate-free list; only membership
is ever consulted. -/
structure ScopeBuilder where
  permissions : List Permission
  query_value : Chars

/-- An empty scope (`ScopeBuilder::new`). -/
def ScopeBuilder.new : ScopeBuilder :=
  { permissions := [], query_value := [] }

/-- Add a single permission (`ScopeBuilder::add_permission`, `src/lib.rs`
lines 330–341): a permission already present changes nothing; otherwise a
space separator (when non-empty), the token, and the set insertion. -/
def ScopeBuilder.add_permission (sb : ScopeBuilder) (p : Permission) : ScopeBuilder :=
  if sb.permissions.contains p then sb
  else
    { permissions := p :: sb.permissions
      query_value :=
        (if sb.query_value.isEmpty then sb.query_value else sb.query_value ++ [' ']) ++ p.as_str }

/-- Add many permissions (`ScopeBuilder::add_permissions`): the loop body of
the source is the body of `add_permission`, folded over the slice. -/
def ScopeBuilder.add_permissions (sb : ScopeBuilder) (ps : List Permission) : ScopeBuilder :=
  ps.foldl ScopeBuilder.add_permission sb

/-- Scope with all available permissions, not including the make-specific
permissions (`ScopeBuilder::with_all_permissions`, `src/lib.rs` lines
365–389, with its exact permission list). -/
def ScopeBuilder.with_all_permissions : ScopeBuilder :=
  ScopeBuilder.new.add_permissions [
    .ControlCharge, .ControlSecurity, .ReadBattery, .ReadCharge,
    .ReadEngineOil, .ReadFuel, .ReadLocation, .ReadOdometer,
    .ReadSecurity, .ReadTires, .ReadVehicleInfo, .ReadVin,
    .ReadCompass, .ReadSpeedeomter, .ReadThermometer]

/-! ## The older permissions builder — `src/permission.rs` -/

namespace PermissionR

/-- A permission (`Permission` in `src/permission.rs`). -/
inductive Permission where
  | ReadEngineOil
  | ReadBattery
  | ReadCharge
  | ControlCharge
  | ReadThermometer
  | ReadFuel
  | ReadLocation
  | ControlSecurity
  | ReadOdometer
  | ReadTires
  | ReadVehicleInfo
  | ReadVin
deriving DecidableEq

/-- URL query token of a permission (`get_query_param_for_permission`). -/
def get_query_param_for_permission : Permission → Chars
  | .ReadEngineOil => "read_engine_oil".toList
  | .ReadBattery => "read_battery".toList
  | .ReadCharge => "read_charge".toList
  | .ControlCharge => "control_charge".toList
  | .ReadThermometer => "read_thermometer".toList
  | .ReadFuel => "read_fuel".toList
  | .ReadLocation => "read_location".toList
  | .ControlSecurity => "control_security".toList
  | .ReadOdometer => "read_odometer".toList
  | .ReadTires => "read_tires".toList
  | .ReadVehicleInfo => "read_vehicle_info".toList
  | .ReadVin => "read_vin".toList

/-- Permissions builder (`Permissions` in `src/permission.rs`). -/
structure Permissions where
  permissions : List Permission

/-- An empty permissions builder (`Permissions::new`). -/
def Permissions.new : Permissions :=
  { permissions := [] }

/-- Push a permission (`Permissions::add`): a plain `Vec::push`, with no
duplicate check. -/
def Permissions.add (ps : Permissions) (p : Permission) : Permissions :=
  { permissions := ps.permissions ++ [p] }

/-- Strip trailing spaces then leading spaces (Rust's `str::trim`; only the
space character occurs in the strings this is applied to). -/
def trimSpaces (l : Chars) : Chars :=
  ((l.dropWhile (fun c => c = ' ')).reverse.dropWhile (fun c => c = ' ')).reverse

/-- Render the scope query fragment (`Permissions::query_string`): a space
before every token, trimmed, behind a literal `&scope=`. -/
def Permissions.query_string (ps : Permissions) : Chars :=
  "&scope=".toList ++
    trimSpaces (ps.permissions.foldl (fun acc p => acc ++ ' ' :: get_query_param_for_permission p) [])

end PermissionR

/-! ## Request assembly — `src/request.rs`, `src/helpers.rs`

A request is modelled up to the point where it would be sent: URL, verb,
headers, query pairs and optional JSON body.  The environment-variable host
overrides of `src/helpers.rs` are absent in the deployment modelled here, so
each host helper returns its default.
-/

/-- HTTP verbs used by the SDK (`HttpVerb` in `src/request.rs`). -/
inductive HttpVerb where
  | Get
  | Post
  | Delete
deriving DecidableEq

/-- A fully assembled request, as `SmartcarRequestBuilder` accumulates it. -/
structure RequestSpec where
  url : String
  verb : HttpVerb
  headers : List (String × String)
  queries : List (String × String)
  body : Option Json

/-- Sextet-to-character table of standard base64. -/
def b64Char (n : Nat) : Char :=
  "ABCDEFGHIJKLMNOPQRSTUVWXYZabcdefghijklmnopqrstuvwxyz0123456789+/".toList.getD n 'A'

/-- Standard base64 with padding (the `base64::encode` used by
`get_basic_b64_auth_header`). -/
def base64Encode : List Nat → Chars
  | a :: b :: c :: rest =>
    b64Char (a / 4) :: b64Char ((a % 4) * 16 + b / 16) ::
    b64Char ((b % 16) * 4 + c / 64) :: b64Char (c % 64) :: base64Encode rest
  | [a, b] => [b64Char (a / 4), b64Char ((a % 4) * 16 + b / 16), b64Char ((b % 16) * 4), '=']
  | [a] => [b64Char (a / 4), b64Char ((a % 4) * 16), '=', '=']
  | [] => []

/-- Bearer auth header value (`get_bearer_token_header`). -/
def get_bearer_token_header (access_token : String) : String :=
  "Bearer " ++ access_token

/-- Basic auth header value (`get_basic_b64_auth_header`). -/
def get_basic_b64_auth_header (client_id client_secret : String) : String :=
  "Basic " ++ ⟨base64Encode (strBytes (client_id ++ ":" ++ client_secret))⟩

/-- Default API host (`get_api_url` in `src/helpers.rs`, env override absent). -/
def get_api_url : String := "https://api.smartcar.com"

/-- Modelled from the spec: `get_management_url` is imported by `src/lib.rs`
but missing from the sources under `src/`; the spec's external-interfaces
section routes management calls to a management host
(`{managementHost}/v2.0/management/connections`). -/
def get_management_url : String := "https://management.smartcar.com"

/-! ## Connection management — `src/lib.rs` lines 202–248 -/

/-- Filters of `delete_connections` (`DeleteConnectionsFilters`). -/
structure DeleteConnectionsFilters where
  vehicle_id : Option String
  user_id : Option String

/-- Filter validation (`DeleteConnectionsFilters::validate`, `src/lib.rs`
lines 207–219): a filter must have exactly one of `vehicle_id`, `user_id`. -/
def DeleteConnectionsFilters.validate (f : DeleteConnectionsFilters) : Except Error Unit :=
  if f.vehicle_id.isSome && f.user_id.isSome then
    .error .DeleteConnectionsFilterValidationError
  else if f.vehicle_id.isNone && f.user_id.isNone then
    .error .DeleteConnectionsFilterValidationError
  else
    .ok ()

/-- Request assembly of `delete_connections` (`src/lib.rs` lines 224–248), up
to the `send` call: the validation error is returned before any request
exists; otherwise the DELETE request that would be sent is returned. -/
def delete_connections (amt : String) (filter : Option DeleteConnectionsFilters) :
    Except Error RequestSpec :=
  let req : RequestSpec :=
    { url := get_management_url ++ "/v2.0/management/connections/"
      verb := .Delete
      headers := [("Authorization", get_basic_b64_auth_header "default" amt)]
      queries := []
      body := none }
  match filter with
  | some f =>
    match f.validate with
    | .error validation_error => .error validation_error
    | .ok _ =>
      let req := match f.vehicle_id with
        | some v => { req with queries := req.queries ++ [("vehicle_id", v)] }
        | none => req
      let req := match f.user_id with
        | some u => { req with queries := req.queries ++ [("user_id", u)] }
        | none => req
      .ok req
  | none => .ok req

/-! ## Per-vehicle requests — `src/vehicle.rs` -/

/-- Unit system of a vehicle (`UnitSystem`). -/
inductive UnitSystem where
  | Imperial
  | Metric

/-- A vehicle handle (`Vehicle`). -/
structure Vehicle where
  id : String
  access_token : String
  unit_system : UnitSystem

/-- Request-builder construction (`Vehicle::get_request_builder`,
`src/vehicle.rs` lines 42–54): API host, the `/v2.0/vehicles/` prefix, the
vehicle id, and the capability suffix, with a bearer auth header. -/
def Vehicle.get_request_builder (v : Vehicle) (path : String) (verb : HttpVerb) : RequestSpec :=
  { url := get_api_url ++ "/v2.0/vehicles/" ++ v.id ++ path
    verb := verb
    headers := [("Authorization", get_bearer_token_header v.access_token)]
    queries := []
    body := none }

/-- The request assembled by `Vehicle::lock` (`src/vehicle.rs` lines
268–279) before sending: POST to `/security` with body `{"action":"LOCK"}`. -/
def Vehicle.lock_request (v : Vehicle) : RequestSpec :=
  { v.get_request_builder "/security" .Post with
      body := some (.obj [("action", .str "LOCK")]) }

/-- The request assembled by `Vehicle::unlock` (`src/vehicle.rs` lines
284–295) before sending: POST with body `{"action":"UNLOCK"}` to the path
spelled `/securiy` in the source. -/
def Vehicle.unlock_request (v : Vehicle) : RequestSpec :=
  { v.get_request_builder "/securiy" .Post with
      body := some (.obj [("action", .str "UNLOCK")]) }

/-! ## Authorization URL generation — `src/auth_client.rs`

This section works over `Chars` so the claims about the URL's characters
(query-parameter multiplicity, percent-encoding of spaces) can be stated
and settled at the character level.
-/

/-- Substring containment, Rust's `str::contains` with a literal pattern. -/
def strContainsSeg (pat : Chars) : Chars → Bool
  | [] => pat.isEmpty
  | c :: rest => pat.isPrefixOf (c :: rest) || strContainsSeg pat rest

/-- Percent-encoding of one character under `str::replace(" ", "%20")`. -/
def spaceEnc (c : Char) : Chars :=
  if c = ' ' then "%20".toList else [c]

/-- Replace every space with `%20` (`str::replace` with the single-character
pattern `" "` rewrites each occurrence independently). -/
def replaceSpaces (l : Chars) : Chars :=
  l.flatMap spaceEnc

/-- Strip trailing spaces (Rust's `str::trim_end`; only the space character
occurs in the strings this is applied to). -/
def trimEndSpaces (l : Chars) : Chars :=
  (l.reverse.dropWhile (fun c => c = ' ')).reverse

/-- Flag-query rendering (`format_flag_query` in `src/helpers.rs`): each
`key:value ` in iteration order, trailing space trimmed.  The `HashMap`
iteration order is modelled as the list order. -/
def format_flag_query (flags : List (Chars × Chars)) : Chars :=
  trimEndSpaces (flags.foldl (fun acc kv => acc ++ kv.1 ++ ':' :: kv.2 ++ [' ']) [])

/-- Join query pairs with `=` and `&` (`MultiQuery::multi_query` in
`src/request.rs`: no leading `?`, no leading or trailing `&`). -/
def multiQuery : List (Chars × Chars) → Chars
  | [] => []
  | [kv] => kv.1 ++ '=' :: kv.2
  | kv :: rest => kv.1 ++ '=' :: kv.2 ++ '&' :: multiQuery rest

/-- Smartcar OAuth client (`AuthClient` in `src/auth_client.rs`). -/
structure AuthClient where
  client_id : Chars
  client_secret : Chars
  redirect_uri : Chars
  test_mode : Bool

/-- Query pairs of an `AuthClient` (`impl MultiQuery for AuthClient`). -/
def AuthClient.vectorize (ac : AuthClient) : List (Chars × Chars) :=
  [("client_id".toList, ac.client_id),
   ("client_secret".toList, ac.client_secret),
   ("redirect_uri".toList, ac.redirect_uri)] ++
  (if ac.test_mode then [("mode".toList, "test".toList)] else [])

/-- Options of a Smartcar Connect URL (`AuthUrlOptionsBuilder`). -/
structure AuthUrlOptionsBuilder where
  force_prompt : Option Bool
  state : Option Chars
  make_bypass : Option Chars
  single_select : Option Bool
  single_select_by_vin : Option Chars
  flags : Option (List (Chars × Chars))

/-- Empty options (`AuthUrlOptionsBuilder::new`). -/
def AuthUrlOptionsBuilder.new : AuthUrlOptionsBuilder :=
  { force_prompt := none, state := none, make_bypass := none,
    single_select := none, single_select_by_vin := none, flags := none }

/-- Setter (`set_force_prompt`). -/
def AuthUrlOptionsBuilder.set_force_prompt (o : AuthUrlOptionsBuilder) (enabled : Bool) :
    AuthUrlOptionsBuilder :=
  { o with force_prompt := some enabled }

/-- Setter (`set_state`). -/
def AuthUrlOptionsBuilder.set_state (o : AuthUrlOptionsBuilder) (st : Chars) :
    AuthUrlOptionsBuilder :=
  { o with state := some st }

/-- Rendering of a boolean (`bool::to_string`). -/
def boolChars (b : Bool) : Chars :=
  if b then "true".toList else "false".toList

/-- Query pairs of the options (`impl MultiQuery for AuthUrlOptionsBuilder`,
`src/auth_client.rs` lines 98–134): an `approval_prompt=force` pair only when
`force_prompt` is `Some(true)`; then `state`, `make`, `flag`; then either
`single_select_vin` plus `single_select=true`, or `single_select` alone. -/
def AuthUrlOptionsBuilder.vectorize (o : AuthUrlOptionsBuilder) : List (Chars × Chars) :=
  (match o.force_prompt with
   | some true => [("approval_prompt".toList, "force".toList)]
   | _ => []) ++
  (match o.state with
   | some st => [("state".toList, st)]
   | none => []) ++
  (match o.make_bypass with
   | some mkv => [("make".toList, mkv)]
   | none => []) ++
  (match o.flags with
   | some fl => [("flag".toList, format_flag_query fl)]
   | none => []) ++
  (match o.single_select_by_vin with
   | some vin => [("single_select_vin".toList, vin), ("single_select".toList, "true".toList)]
   | none =>
     match o.single_select with
     | some enabled => [("single_select".toList, boolChars enabled)]
     | none => [])

/-- Default Connect host (`get_connect_url` in `src/helpers.rs`, env
override absent). -/
def get_connect_url : Chars := "https://connect.smartcar.com".toList

/-- The URL assembled by `AuthClient::get_auth_url` (`src/auth_client.rs`
lines 223–248) before its final space replacement: host, `/oauth/authorize`,
the scope, `response_type=code`, the client's query pairs, the options'
query pairs when non-empty, and a default `approval_prompt=auto` appended
whenever the string built so far does not contain `approval_prompt`. -/
def authUrlRaw (ac : AuthClient) (scope : ScopeBuilder)
    (options : Option AuthUrlOptionsBuilder) : Chars :=
  let url := get_connect_url ++ "/oauth/authorize?scope=".toList ++ scope.query_value ++
    "&response_type=code&".toList ++ multiQuery ac.vectorize
  let url := match options with
    | some opt =>
      let options_query := multiQuery opt.vectorize
      if 0 < options_query.length then url ++ '&' :: options_query else url
    | none => url
  if strContainsSeg "approval_prompt".toList url then url
  else url ++ "&approval_prompt=auto".toList

/-- Generate the Smartcar Connect URL (`AuthClient::get_auth_url`): the raw
URL with every space replaced by `%20`. -/
def AuthClient.get_auth_url (ac : AuthClient) (scope : ScopeBuilder)
    (options : Option AuthUrlOptionsBuilder) : Chars :=
  replaceSpaces (authUrlRaw ac scope options)

/-! ## Observation functions over URLs

The vocabulary in which the URL claims are stated: the query part of a URL
(everything after the first `?`), split at `&` into chunks, each read as a
`key=value` pair.
-/

/-- Everything after the first occurrence of a character. -/
def afterChar (c : Char) : Chars → Chars
  | [] => []
  | x :: rest => if x = c then rest else afterChar c rest

/-- Split at a separator character; chunks keep their order, separators are
dropped, empty chunks are kept. -/
def splitOnChar (sep : Char) : Chars → List Chars
  | [] => [[]]
  | c :: rest =>
    let r := splitOnChar sep rest
    if c = sep then [] :: r else (c :: r.headD []) :: r.tail

/-- Key of a `key=value` chunk. -/
def paramKey (chunk : Chars) : Chars :=
  chunk.takeWhile (fun c => c ≠ '=')

/-- Value of a `key=value` chunk. -/
def paramVal (chunk : Chars) : Chars :=
  (chunk.dropWhile (fun c => c ≠ '=')).drop 1

/-- The query parameters of a URL, in order. -/
def queryParams (url : Chars) : List (Chars × Chars) :=
  (splitOnChar '&' (afterChar '?' url)).map (fun chunk => (paramKey chunk, paramVal chunk))

/-- The pattern the source's default-prompt check scans for. -/
def apPat : Chars := "approval_prompt".toList

/-- The `approval_prompt` query parameters of a URL, in order. -/
def approvalEntries (url : Chars) : List (Chars × Chars) :=
  (queryParams url).filter (fun p => p.1 == apPat)

/-- Whether forced re-consent was explicitly requested. -/
def optsForced : Option AuthUrlOptionsBuilder → Bool
  | some o => o.force_prompt == some true
  | none => false

/-- Cleanliness of a string interpolated into the authorization URL: it
does not contain the substring `approval_prompt` that the source's
default-prompt check scans for. -/
abbrev cleanVal (v : Chars) : Prop :=
  strContainsSeg apPat v = false

/-- The authorization endpoint up to its `?`. -/
def urlLit : Chars := "https://connect.smartcar.com/oauth/authorize".toList

/-- The query pairs that precede the options in the authorization URL. -/
def baseParams (ac : AuthClient) (scope : ScopeBuilder) : List (Chars × Chars) :=
  ("scope".toList, scope.query_value) ::
  ("response_type".toList, "code".toList) :: ac.vectorize

/-- The query pairs contributed by the options, if any. -/
def optsVecOf : Option AuthUrlOptionsBuilder → List (Chars × Chars)
  | some o => o.vectorize
  | none => []

/-! ## Test fixtures for the claims -/

/-- JSON encoding of a `resolution` map, as serde serializes
`HashMap<String, Option<String>>`. -/
def mkResolutionJson (res : List (String × Option String)) : Json :=
  .obj (res.map (fun p => (p.1, match p.2 with | some s => .str s | none => .null)))

/-- JSON encoding of a provider error body with the given field values, in
the wire spelling (`type`, `docURL`, `statusCode`, `requestId`). -/
def mkSmartcarErrorJson (t : String) (c : Option String) (desc durl : String) (sc : Int)
    (res : List (String × Option String)) (rid : String) : Json :=
  .obj [("type", .str t),
        ("code", match c with | some s => .str s | none => .null),
        ("description", .str desc),
        ("docURL", .str durl),
        ("statusCode", .num ⟨sc, false⟩),
        ("resolution", mkResolutionJson res),
        ("requestId", .str rid)]

/-- A batch-entry body that matches the provider-error shape and also
carries a `distance` field, so it matches the `Odometer` shape too. -/
def ambiguousBatchBody : Json :=
  .obj [("type", .str "VEHICLE_STATE"),
        ("code", .str "VS_000"),
        ("description", .str "docs desc"),
        ("docURL", .str "docs url"),
        ("statusCode", .num ⟨409, false⟩),
        ("resolution", .obj []),
        ("requestId", .str "req-1"),
        ("distance", .num ⟨104, false⟩)]

/-- A non-200 response whose body does not match the provider-error shape. -/
def badErrorResponse : HttpResponse :=
  { status := 500, headers := [], body := .obj [] }

/-! ## Sanity checks of the cryptographic model -/

/-- SHA-256 sanity check against the FIPS test vector for the empty message. -/
theorem sha256_vector_empty :
    hexEncode (sha256 []) =
      "e3b0c44298fc1c149afbf4c8996fb92427ae41e4649b934ca495991b7852b855" := by
  rfl

/-- SHA-256 sanity check against the FIPS test vector for "abc". -/
theorem sha256_vector_abc :
    hexEncode (sha256 (strBytes "abc")) =
      "ba7816bf8f01cfea414140de5dae2223b00361a396177a9cb410ff61f20015ad" := by
  rfl

/-- HMAC-SHA256 sanity check against RFC 4231 test case 2. -/
theorem hmac_vector_rfc4231_2 :
    hexEncode (hmacSha256 (strBytes "Jefe") (strBytes "what do ya want for nothing?")) =
      "5bdcc146bf60754e6a042426089575c75a003f089d2739839dec58b964ec3843" := by
  rfl

/-! ## Claim C1 — webhook challenge hashing -/

/-- C1: at the repository's own test input (`src/webhooks.rs` test,
secret `abc123abc123`, challenge `9c9c9c9c`), `hash_challenge` returns the
digest of the HMAC keyed by the CHALLENGE bytes over the SECRET bytes — the
arguments of the claimed construction swapped — and that digest differs from
the claimed one, the HMAC keyed by the secret over the challenge
(`hash_challenge_spec`). -/
theorem c1_code_eval :
    hash_challenge "abc123abc123" "9c9c9c9c" =
        .ok (hexEncode (hmacSha256 (strBytes "9c9c9c9c") (strBytes "abc123abc123")))
    ∧ hash_challenge "abc123abc123" "9c9c9c9c" =
        .ok "58866436573a1df2aaf9f8a8250d183703c72068e7a6a98deca6fa58480531b8"
    ∧ hash_challenge_spec "abc123abc123" "9c9c9c9c" =
        "2a596ed34b8c6f069492d952aa51f076fee7b1c662b6498e0217a0d41fd9b936"
    ∧ hash_challenge "abc123abc123" "9c9c9c9c" ≠
        .ok (hash_challenge_spec "abc123abc123" "9c9c9c9c") := by
  refine ⟨rfl, rfl, rfl, fun h => ?_⟩
  rw [show hash_challenge "abc123abc123" "9c9c9c9c" =
        .ok "58866436573a1df2aaf9f8a8250d183703c72068e7a6a98deca6fa58480531b8" from rfl,
      show hash_challenge_spec "abc123abc123" "9c9c9c9c" =
        "2a596ed34b8c6f069492d952aa51f076fee7b1c662b6498e0217a0d41fd9b936" from rfl] at h
  exact absurd (Except.ok.inj h) (by decide)

/-! ## Claim C3 — scope-building idempotence -/

/-- C3 counterexample: the `Permissions` builder of `src/permission.rs` has
no duplicate check, so adding `ReadVin` twice renders a different scope
string than adding it once. -/
theorem c3_counterexample :
    PermissionR.Permissions.query_string ((PermissionR.Permissions.new.add .ReadVin).add .ReadVin) ≠
      PermissionR.Permissions.query_string (PermissionR.Permissions.new.add .ReadVin) := by
  decide

/-- C3 amended: for `ScopeBuilder::add_permission` (the builder of
`src/lib.rs`), adding a permission twice yields the same rendered scope
string as adding it once. -/
theorem c3_amended (sb : ScopeBuilder) (p : Permission) :
    ((sb.add_permission p).add_permission p).query_value = (sb.add_permission p).query_value := by
  by_cases h : p ∈ sb.permissions <;>
    simp [ScopeBuilder.add_permission, h]

/-! ## Claim C5 — the `with_all_permissions` scope -/

/-- C5 counterexample: `with_all_permissions` does not contain every
`Permission` variant — `ControlClimate` is absent. -/
theorem c5_counterexample :
    ScopeBuilder.with_all_permissions.permissions.contains Permission.ControlClimate = false := by
  decide

/-- C5 amended: `with_all_permissions` contains exactly the `Permission`
variants other than the six make-specific ones `ControlClimate`,
`ReadChargeEvents`, `ReadChargeLocations`, `ReadChargeRecords`,
`ReadClimate`, `ReadExtendedVehicleInfo` (its own doc comment excludes
make-specific permissions). -/
theorem c5_amended (p : Permission) :
    ScopeBuilder.with_all_permissions.permissions.contains p =
      !(([.ControlClimate, .ReadChargeEvents, .ReadChargeLocations, .ReadChargeRecords,
          .ReadClimate, .ReadExtendedVehicleInfo] : List Permission).contains p) := by
  cases p <;> rfl

/-! ## Claim C6 — per-vehicle endpoint paths -/

/-- C6: for a concrete vehicle, `lock` posts to the `/security` suffix but
`unlock` posts to the misspelled `/securiy` suffix, so unlock's URL differs
from the claimed one. -/
theorem c6_code_eval :
    (Vehicle.unlock_request ⟨"VID", "TOK", .Metric⟩).url =
        "https://api.smartcar.com/v2.0/vehicles/VID/securiy"
    ∧ (Vehicle.lock_request ⟨"VID", "TOK", .Metric⟩).url =
        "https://api.smartcar.com/v2.0/vehicles/VID/security"
    ∧ (Vehicle.unlock_request ⟨"VID", "TOK", .Metric⟩).url ≠
        "https://api.smartcar.com/v2.0/vehicles/VID/security" := by
  refine ⟨rfl, rfl, ?_⟩
  decide

/-! ## Claims C9 and C10 — delete_connections filter validation -/

/-- C9: a filter with both `vehicle_id` and `user_id` set makes
`delete_connections` return the filter-validation error; in this staged
model the request value is never produced, so nothing is sent. -/
theorem c9_both_set (amt v u : String) :
    delete_connections amt (some ⟨some v, some u⟩) =
      .error .DeleteConnectionsFilterValidationError := rfl

/-- C10: a filter with neither field set is also rejected with the same
validation error before any request exists, while a filter with exactly one
field set, or no filter at all, proceeds to an assembled request. -/
theorem c10_filter_cases (amt v u : String) :
    delete_connections amt (some ⟨none, none⟩) =
        .error .DeleteConnectionsFilterValidationError
    ∧ (∃ r, delete_connections amt (some ⟨some v, none⟩) = .ok r)
    ∧ (∃ r, delete_connections amt (some ⟨none, some u⟩) = .ok r)
    ∧ (∃ r, delete_connections amt none = .ok r) :=
  ⟨rfl, ⟨_, rfl⟩, ⟨_, rfl⟩, ⟨_, rfl⟩⟩

/-! ## Claims C2 and C7 — error-body deserialization -/

/-- The serde encoding of a resolution map deserializes back to itself. -/
theorem asStrOptMap_mk (res : List (String × Option String)) :
    asStrOptMap (mkResolutionJson res) = some res := by
  induction res with
  | nil => rfl
  | cons p rest ih =>
    rcases p with ⟨k, v⟩
    simp only [mkResolutionJson, asStrOptMap, List.map_cons] at ih ⊢
    cases v with
    | none =>
      simp [optMapAll, ih, show asOptString Json.null = some none from rfl]
    | some s =>
      simp [optMapAll, ih, show asOptString (Json.str s) = some (some s) from rfl]

/-- A provider-error body deserializes to exactly its field values. -/
theorem deserSmartcarError_mk (t : String) (c : Option String) (desc durl : String) (sc : Int)
    (res : List (String × Option String)) (rid : String)
    (h1 : -2147483648 ≤ sc) (h2 : sc < 2147483648) :
    deserSmartcarError (mkSmartcarErrorJson t c desc durl sc res rid) =
      some ⟨t, c, desc, durl, sc, res, rid⟩ := by
  cases c <;>
    simp [deserSmartcarError, mkSmartcarErrorJson, getField, List.find?, asString,
      getOptStringField, asOptString, asI32, asStrOptMap_mk, h1, h2]

/-- C2 counterexample: a body carrying all provider-error fields plus a
`distance` field matches the error shape, yet the untagged union tags it as
`Odometer` — the error shape is not checked first. -/
theorem c2_counterexample :
    (deserSmartcarError ambiguousBatchBody).isSome = true
    ∧ deserSmartcarResponseBody ambiguousBatchBody = some (.Odometer ⟨⟨104, false⟩⟩)
    ∧ ∀ e, deserSmartcarResponseBody ambiguousBatchBody ≠ some (.SmartcarError e) := by
  refine ⟨by decide, by decide, fun e h => ?_⟩
  rw [show deserSmartcarResponseBody ambiguousBatchBody = some (.Odometer ⟨⟨104, false⟩⟩)
      from by decide] at h
  simp at h

/-- C2 amended: the untagged `SmartcarResponseBody` union tries its
variants in declaration order with the provider-error shape last, and on a
response list of one plain `Odometer` body and one plain provider-error
body each entry is tagged into its correct variant, with no
cross-contamination. -/
theorem c2_amended (d : JsonNum) (t : String) (c : Option String) (desc durl rid : String)
    (sc : Int) (res : List (String × Option String))
    (h1 : -2147483648 ≤ sc) (h2 : sc < 2147483648) :
    [Json.obj [("distance", Json.num d)], mkSmartcarErrorJson t c desc durl sc res rid].map
        deserSmartcarResponseBody =
      [some (.Odometer ⟨d⟩), some (.SmartcarError ⟨t, c, desc, durl, sc, res, rid⟩)] := by
  cases c <;>
    simp [deserSmartcarResponseBody, deserApplicationPermissions, deserBatteryCapacity,
      deserBatteryLevel, deserChargeLimit, deserChargingStatus, deserEngineOilLife,
      deserFuelTank, deserLocation, deserLockStatus, deserOdometer, deserTirePressure,
      deserVehicleAttributes, deserVin, deserSmartcarError, mkSmartcarErrorJson, getField,
      List.find?, asF32, asString, asBool, getOptStringField, asOptString, asI32,
      asStrOptMap_mk, h1, h2]

/-- C2 witness. -/
theorem c2_amended_witness :
    [Json.obj [("distance", Json.num ⟨104, false⟩)],
     mkSmartcarErrorJson "VEHICLE_STATE" none "D" "U" 409 [] "R"].map
        deserSmartcarResponseBody =
      [some (.Odometer ⟨⟨104, false⟩⟩),
       some (.SmartcarError ⟨"VEHICLE_STATE", none, "D", "U", 409, [], "R"⟩)] :=
  c2_amended ⟨104, false⟩ "VEHICLE_STATE" none "D" "U" "R" 409 [] (by decide) (by decide)

/-- C7 counterexample: a non-200 response whose body fails to parse as the
provider-error shape is surfaced as `SdkReqwestFailure` (the kind that also
covers transport failures, via the `#[from] reqwest::Error` conversion), not
as the SDK's dedicated deserialization-failure kind `SdkSerdeFailure`. -/
theorem c7_counterexample :
    SmartcarRequestBuilder.send badErrorResponse = .error (.SdkReqwestFailure .decode)
    ∧ SmartcarRequestBuilder.send badErrorResponse ≠ .error .SdkSerdeFailure := by
  refine ⟨rfl, fun h => ?_⟩
  rw [show SmartcarRequestBuilder.send badErrorResponse =
      .error (.SdkReqwestFailure .decode) from rfl] at h
  simp at h

/-- C7 amended: every non-200 response yields an error, never a success; a
body that is a well-formed provider error is surfaced as the provider-error
kind with every field preserved exactly, and a body that fails to parse as
that shape is surfaced as `SdkReqwestFailure` wrapping the decode failure
(not as `SdkSerdeFailure`). -/
theorem c7_amended (st : Nat) (hs : List (String × String)) (t : String) (c : Option String)
    (desc durl rid : String) (sc : Int) (res : List (String × Option String))
    (hst : st ≠ 200) (h1 : -2147483648 ≤ sc) (h2 : sc < 2147483648) :
    SmartcarRequestBuilder.send ⟨st, hs, mkSmartcarErrorJson t c desc durl sc res rid⟩ =
        .error (.SmartcarError ⟨t, c, desc, durl, sc, res, rid⟩)
    ∧ ∀ b : Json, deserSmartcarError b = none →
        SmartcarRequestBuilder.send ⟨st, hs, b⟩ = .error (.SdkReqwestFailure .decode) := by
  constructor
  · simp [SmartcarRequestBuilder.send, responseJsonSmartcarError, hst,
      deserSmartcarError_mk t c desc durl sc res rid h1 h2]
  · intro b hb
    simp [SmartcarRequestBuilder.send, responseJsonSmartcarError, hst, hb]

/-- C7 witness. -/
theorem c7_amended_witness :
    SmartcarRequestBuilder.send
        ⟨404, [], mkSmartcarErrorJson "T" (some "C") "D" "U" 404 [("k", some "v")] "R"⟩ =
      .error (.SmartcarError ⟨"T", some "C", "D", "U", 404, [("k", some "v")], "R"⟩) :=
  (c7_amended 404 [] "T" (some "C") "D" "U" "R" 404 [("k", some "v")]
    (by decide) (by decide) (by decide)).1

/-! ## String lemmas for the authorization-URL claims -/

/-- Boolean prefix test as an existence statement. -/
theorem isPrefixOf_ex (p : Chars) : ∀ l : Chars, p.isPrefixOf l = true ↔ ∃ t, l = p ++ t := by
  induction p with
  | nil => intro l; simp [List.isPrefixOf]
  | cons a as ih =>
    intro l
    cases l with
    | nil => simp [List.isPrefixOf]
    | cons b bs =>
      simp only [List.isPrefixOf, Bool.and_eq_true, beq_iff_eq, ih, List.cons_append,
        List.cons.injEq]
      constructor
      · rintro ⟨rfl, t, rfl⟩; exact ⟨t, rfl, rfl⟩
      · rintro ⟨t, rfl, rfl⟩; exact ⟨rfl, t, rfl⟩

/-- Substring containment as an existence statement. -/
theorem segIn_iff (pat : Chars) : ∀ l : Chars,
    strContainsSeg pat l = true ↔ ∃ x y, l = x ++ pat ++ y := by
  intro l
  induction l with
  | nil =>
    simp only [strContainsSeg, List.isEmpty_iff]
    constructor
    · rintro rfl; exact ⟨[], [], rfl⟩
    · rintro ⟨x, y, hxy⟩
      have h := hxy.symm
      simp only [List.append_assoc, List.append_eq_nil] at h
      exact h.2.1
  | cons c rest ih =>
    rw [strContainsSeg]
    simp only [Bool.or_eq_true, isPrefixOf_ex, ih]
    constructor
    · rintro (⟨t, ht⟩ | ⟨x, y, hxy⟩)
      · exact ⟨[], t, by simpa using ht⟩
      · exact ⟨c :: x, y, by simp [hxy]⟩
    · rintro ⟨x, y, hxy⟩
      cases x with
      | nil => exact Or.inl ⟨y, by simpa using hxy⟩
      | cons x0 xs =>
        right
        rw [show (x0 :: xs) ++ pat ++ y = x0 :: (xs ++ pat ++ y) from by simp] at hxy
        injection hxy with h1 h2
        exact ⟨xs, y, h2⟩

/-- A prefix of `a ++ c :: b` avoiding `c` is a prefix of `a`. -/
theorem pfx_through_sep {c : Char} : ∀ (a p : Chars), c ∉ p → ∀ b : Chars,
    p.isPrefixOf (a ++ c :: b) = true → p.isPrefixOf a = true := by
  intro a
  induction a with
  | nil =>
    intro p hc b h
    cases p with
    | nil => simp [List.isPrefixOf]
    | cons p0 ps =>
      exfalso
      rw [List.nil_append] at h
      simp only [List.isPrefixOf, Bool.and_eq_true, beq_iff_eq] at h
      exact hc (h.1 ▸ List.mem_cons_self p0 ps)
  | cons a0 as ih =>
    intro p hc b h
    cases p with
    | nil => simp [List.isPrefixOf]
    | cons p0 ps =>
      rw [List.cons_append] at h
      simp only [List.isPrefixOf, Bool.and_eq_true, beq_iff_eq] at h ⊢
      exact ⟨h.1, ih ps (fun hm => hc (List.mem_cons_of_mem _ hm)) b h.2⟩

/-- Containment cannot arise across a separator character the pattern
lacks. -/
theorem segIn_sep_split {pat : Chars} {c : Char} (hpat : pat ≠ []) (hc : c ∉ pat) :
    ∀ (a b : Chars), strContainsSeg pat a = false → strContainsSeg pat b = false →
      strContainsSeg pat (a ++ c :: b) = false := by
  intro a
  induction a with
  | nil =>
    intro b _ hb
    rw [List.nil_append, strContainsSeg]
    cases pat with
    | nil => exact absurd rfl hpat
    | cons p0 ps =>
      have hne : (p0 == c) = false := by
        simp only [beq_eq_false_iff_ne, ne_eq]
        exact fun e => hc (e ▸ List.mem_cons_self p0 ps)
      simp [List.isPrefixOf, hne, hb]
  | cons a0 as ih =>
    intro b ha hb
    rw [strContainsSeg] at ha
    have ha1 : pat.isPrefixOf (a0 :: as) = false := by
      cases hx : pat.isPrefixOf (a0 :: as) <;> simp [hx] at ha ⊢
    have ha2 : strContainsSeg pat as = false := by
      cases hx : strContainsSeg pat as <;> simp [hx] at ha ⊢
    rw [List.cons_append, strContainsSeg]
    have h1 : pat.isPrefixOf (a0 :: (as ++ c :: b)) = false := by
      cases hx : pat.isPrefixOf (a0 :: (as ++ c :: b))
      · rfl
      · exfalso
        rw [show a0 :: (as ++ c :: b) = (a0 :: as) ++ c :: b from rfl] at hx
        rw [pfx_through_sep (a0 :: as) pat hc b hx] at ha1
        exact Bool.noConfusion ha1
    simp [h1, ih b ha2 hb]

/-- A containment anywhere right of an append point. -/
theorem segIn_occurs (pat x y : Chars) : strContainsSeg pat (x ++ pat ++ y) = true :=
  (segIn_iff pat _).mpr ⟨x, y, rfl⟩

/-- Skipping a prefix that lacks the scanned character. -/
theorem afterChar_append_no (c : Char) : ∀ (a b : Chars), c ∉ a →
    afterChar c (a ++ b) = afterChar c b := by
  intro a
  induction a with
  | nil => intro b _; rfl
  | cons a0 as ih =>
    intro b h
    rw [List.cons_append, afterChar]
    rw [if_neg (fun e : a0 = c => h (by rw [← e]; exact List.mem_cons_self a0 as))]
    exact ih b (fun hm => h (List.mem_cons_of_mem _ hm))

/-- Splitting never yields the empty chunk list. -/
theorem splitOnChar_ne_nil (sep : Char) (l : Chars) : splitOnChar sep l ≠ [] := by
  cases l with
  | nil => simp [splitOnChar]
  | cons c rest =>
    simp only [splitOnChar]
    split <;> simp

/-- Splitting distributes over a separator occurrence. -/
theorem splitOnChar_sep_append (sep : Char) : ∀ (a b : Chars),
    splitOnChar sep (a ++ sep :: b) = splitOnChar sep a ++ splitOnChar sep b := by
  intro a
  induction a with
  | nil => intro b; simp [splitOnChar]
  | cons a0 as ih =>
    intro b
    by_cases h : a0 = sep
    · subst h
      rw [List.cons_append]
      simp [splitOnChar, ih]
    · rw [List.cons_append]
      simp only [splitOnChar, if_neg h, ih]
      cases hsp : splitOnChar sep as with
      | nil => exact absurd hsp (splitOnChar_ne_nil sep as)
      | cons h0 t0 => simp

/-- A separator-free string is one chunk. -/
theorem splitOnChar_no_sep (sep : Char) : ∀ l : Chars, sep ∉ l → splitOnChar sep l = [l] := by
  intro l
  induction l with
  | nil => intro _; rfl
  | cons c rest ih =>
    intro h
    have hc : ¬c = sep := fun e => h (by rw [← e]; exact List.mem_cons_self c rest)
    simp [splitOnChar, hc, ih (fun hm => h (List.mem_cons_of_mem _ hm))]

/-- Splitting after a separator-free prefix extends the first chunk. -/
theorem splitOnChar_append_no_sep (sep : Char) : ∀ (a m : Chars), sep ∉ a →
    splitOnChar sep (a ++ m) =
      (a ++ (splitOnChar sep m).headD []) :: (splitOnChar sep m).tail := by
  intro a
  induction a with
  | nil =>
    intro m _
    cases hm : splitOnChar sep m with
    | nil => exact absurd hm (splitOnChar_ne_nil sep m)
    | cons h0 t0 => simp [hm]
  | cons a0 as ih =>
    intro m h
    have hc : ¬a0 = sep := fun e => h (by rw [← e]; exact List.mem_cons_self a0 as)
    rw [List.cons_append]
    simp [splitOnChar, hc, ih m (fun hm => h (List.mem_cons_of_mem _ hm))]

/-- The first chunk is a prefix of the string. -/
theorem splitOnChar_head_pfx (sep : Char) : ∀ l : Chars,
    ∃ t, l = (splitOnChar sep l).headD [] ++ t := by
  intro l
  induction l with
  | nil => exact ⟨[], rfl⟩
  | cons c rest ih =>
    by_cases h : c = sep
    · subst h
      exact ⟨c :: rest, by simp [splitOnChar]⟩
    · obtain ⟨t, ht⟩ := ih
      refine ⟨t, ?_⟩
      simp only [splitOnChar, if_neg h, List.headD_cons]
      rw [List.cons_append]
      exact congrArg (c :: ·) ht

/-- Every chunk occurs inside the split string. -/
theorem splitOnChar_chunk_occurs (sep : Char) : ∀ (l ch : Chars),
    ch ∈ splitOnChar sep l → ∃ x y, l = x ++ ch ++ y := by
  intro l
  induction l with
  | nil =>
    intro ch h
    simp [splitOnChar] at h
    subst h
    exact ⟨[], [], rfl⟩
  | cons c rest ih =>
    intro ch h
    by_cases hc : c = sep
    · subst hc
      simp only [splitOnChar, if_pos rfl] at h
      rcases List.mem_cons.mp h with h0 | h1
      · subst h0; exact ⟨[], c :: rest, rfl⟩
      · obtain ⟨x, y, hxy⟩ := ih ch h1
        exact ⟨c :: x, y, by simp [hxy]⟩
    · simp only [splitOnChar, if_neg hc] at h
      rcases List.mem_cons.mp h with h0 | h1
      · subst h0
        obtain ⟨t, ht⟩ := splitOnChar_head_pfx sep rest
        refine ⟨[], t, ?_⟩
        simp only [List.nil_append, List.cons_append]
        exact congrArg (c :: ·) ht
      · have h2 : ch ∈ splitOnChar sep rest := by
          cases hsp : splitOnChar sep rest with
          | nil => exact absurd hsp (splitOnChar_ne_nil sep rest)
          | cons r0 rt =>
            rw [hsp] at h1
            exact hsp ▸ List.mem_cons_of_mem r0 h1
        obtain ⟨x, y, hxy⟩ := ih ch h2
        exact ⟨c :: x, y, by simp [hxy]⟩

/-- Unfolding of `multiQuery` on a list with at least two entries. -/
theorem multiQuery_cons (kv : Chars × Chars) (rest : List (Chars × Chars)) (h : rest ≠ []) :
    multiQuery (kv :: rest) = kv.1 ++ '=' :: kv.2 ++ '&' :: multiQuery rest := by
  cases rest with
  | nil => exact absurd rfl h
  | cons r0 rt => rfl

/-- A non-empty query list renders to a non-empty string. -/
theorem multiQuery_cons_ne (kv : Chars × Chars) (rest : List (Chars × Chars)) :
    multiQuery (kv :: rest) ≠ [] := by
  cases rest with
  | nil => simp [multiQuery]
  | cons r0 rt => rw [multiQuery_cons _ _ (by simp)]; simp

/-- Joining distributes over list append, inserting one `&`. -/
theorem multiQuery_append : ∀ (a b : List (Chars × Chars)), a ≠ [] → b ≠ [] →
    multiQuery (a ++ b) = multiQuery a ++ '&' :: multiQuery b := by
  intro a
  induction a with
  | nil => intro b h; exact absurd rfl h
  | cons a0 as ih =>
    intro b _ hb
    cases as with
    | nil =>
      rw [List.cons_append, List.nil_append, multiQuery_cons a0 b hb]
      simp [multiQuery, List.append_assoc]
    | cons a1 as' =>
      rw [List.cons_append, multiQuery_cons a0 _ (by simp), multiQuery_cons a0 _ (by simp),
        ih b (by simp) hb]
      simp [List.append_assoc]

/-- Splitting the rendered query at `&` recovers the `key=value` chunks. -/
theorem splitOnChar_multiQuery : ∀ L : List (Chars × Chars), L ≠ [] →
    (∀ kv ∈ L, '&' ∉ kv.1 ∧ '&' ∉ kv.2) →
    splitOnChar '&' (multiQuery L) = L.map (fun kv => kv.1 ++ '=' :: kv.2) := by
  intro L
  induction L with
  | nil => intro h; exact absurd rfl h
  | cons kv rest ih =>
    intro _ hcl
    have hk := (hcl kv (List.mem_cons_self kv rest)).1
    have hv := (hcl kv (List.mem_cons_self kv rest)).2
    have hch : '&' ∉ kv.1 ++ '=' :: kv.2 := by
      intro hmem
      rcases List.mem_append.mp hmem with h | h
      · exact hk h
      · rcases List.mem_cons.mp h with h0 | h0
        · exact absurd h0 (by decide)
        · exact hv h0
    cases rest with
    | nil =>
      show splitOnChar '&' (kv.1 ++ '=' :: kv.2) = [kv.1 ++ '=' :: kv.2]
      exact splitOnChar_no_sep '&' _ hch
    | cons r0 rt =>
      rw [multiQuery_cons _ _ (by simp), splitOnChar_sep_append '&' (kv.1 ++ '=' :: kv.2) _,
        splitOnChar_no_sep '&' _ hch,
        ih (by simp) (fun kv' hkv' => hcl kv' (List.mem_cons_of_mem _ hkv'))]
      simp

/-- Taking while a predicate holds passes over a wholly satisfying prefix. -/
theorem takeWhile_all_append (p : Char → Bool) : ∀ (a m : Chars), (∀ x ∈ a, p x = true) →
    (a ++ m).takeWhile p = a ++ m.takeWhile p := by
  intro a
  induction a with
  | nil => intro m _; rfl
  | cons a0 as ih =>
    intro m h
    rw [List.cons_append, List.takeWhile_cons, if_pos (h a0 (List.mem_cons_self a0 as)),
      ih m (fun x hx => h x (List.mem_cons_of_mem _ hx)), List.cons_append]

/-- Dropping while a predicate holds skips a wholly satisfying prefix. -/
theorem dropWhile_all_append (p : Char → Bool) : ∀ (a m : Chars), (∀ x ∈ a, p x = true) →
    (a ++ m).dropWhile p = m.dropWhile p := by
  intro a
  induction a with
  | nil => intro m _; rfl
  | cons a0 as ih =>
    intro m h
    rw [List.cons_append, List.dropWhile_cons, if_pos (h a0 (List.mem_cons_self a0 as))]
    exact ih m (fun x hx => h x (List.mem_cons_of_mem _ hx))

/-- The key of a well-formed chunk. -/
theorem paramKey_pair (k v : Chars) (h : '=' ∉ k) : paramKey (k ++ '=' :: v) = k := by
  unfold paramKey
  rw [takeWhile_all_append _ k _ (fun x hx => by
    simp only [decide_eq_true_eq]
    exact fun e => h (e ▸ hx))]
  simp [List.takeWhile_cons]

/-- The value of a well-formed chunk. -/
theorem paramVal_pair (k v : Chars) (h : '=' ∉ k) : paramVal (k ++ '=' :: v) = v := by
  unfold paramVal
  rw [dropWhile_all_append _ k _ (fun x hx => by
    simp only [decide_eq_true_eq]
    exact fun e => h (e ▸ hx))]
  simp [List.dropWhile_cons]

/-- Space replacement unfolds over cons. -/
theorem replaceSpaces_cons (c : Char) (l : Chars) :
    replaceSpaces (c :: l) = spaceEnc c ++ replaceSpaces l := rfl

/-- Space replacement leaves no literal space behind. -/
theorem replaceSpaces_no_space (l : Chars) : ' ' ∉ replaceSpaces l := by
  intro h
  rw [replaceSpaces, List.mem_flatMap] at h
  obtain ⟨c, _, hc⟩ := h
  by_cases e : c = ' '
  · subst e
    rw [show spaceEnc ' ' = "%20".toList from rfl] at hc
    exact absurd hc (by decide)
  · rw [show spaceEnc c = [c] from by simp [spaceEnc, e]] at hc
    exact e (List.mem_singleton.mp hc).symm

/-- Space replacement fixes space-free strings. -/
theorem replaceSpaces_fix : ∀ l : Chars, ' ' ∉ l → replaceSpaces l = l := by
  intro l
  induction l with
  | nil => intro _; rfl
  | cons c rest ih =>
    intro h
    have hc : c ≠ ' ' := fun e => h (e ▸ List.mem_cons_self c rest)
    rw [replaceSpaces_cons, show spaceEnc c = [c] from by simp [spaceEnc, hc],
      ih (fun hm => h (List.mem_cons_of_mem _ hm))]
    rfl

/-- Space replacement cannot produce a percent-free string it did not
start from. -/
theorem rs_eq_of_no_pct : ∀ (k pat : Chars), '%' ∉ pat → replaceSpaces k = pat → k = pat := by
  intro k
  induction k with
  | nil => intro pat _ h; exact h
  | cons c rest ih =>
    intro pat hp h
    rw [replaceSpaces_cons] at h
    by_cases e : c = ' '
    · subst e
      exfalso
      rw [show spaceEnc ' ' = '%' :: "20".toList from rfl, List.cons_append] at h
      exact hp (h ▸ List.mem_cons_self '%' _)
    · rw [show spaceEnc c = [c] from by simp [spaceEnc, e], List.singleton_append] at h
      cases pat with
      | nil => exact absurd h (by simp)
      | cons p0 ps =>
        injection h with h1 h2
        rw [h1, ih ps (fun hm => hp (List.mem_cons_of_mem _ hm)) h2]

/-- Key comparison against `approval_prompt` is unchanged by space
replacement. -/
theorem beq_rs_pat (k : Chars) : (replaceSpaces k == apPat) = (k == apPat) := by
  by_cases h : k = apPat
  · subst h
    rw [replaceSpaces_fix _ (by decide)]
  · have h2 : replaceSpaces k ≠ apPat := fun hc => h (rs_eq_of_no_pct k apPat (by decide) hc)
    simp [h, h2]

/-- The replacement of a character never introduces a character outside
`%20` that the character itself is not. -/
theorem spaceEnc_no_struct {d : Char} (hd : d ∉ ("%20".toList : Chars)) (c : Char)
    (hc : ¬c = d) : d ∉ spaceEnc c := by
  by_cases e : c = ' '
  · subst e
    rw [show spaceEnc ' ' = "%20".toList from rfl]
    exact hd
  · rw [show spaceEnc c = [c] from by simp [spaceEnc, e]]
    exact fun hm => hc ((List.mem_singleton.mp hm).symm)

/-- Taking the query part commutes with space replacement. -/
theorem afterChar_rs : ∀ l : Chars,
    afterChar '?' (replaceSpaces l) = replaceSpaces (afterChar '?' l) := by
  intro l
  induction l with
  | nil => rfl
  | cons c rest ih =>
    rw [replaceSpaces_cons]
    by_cases e : c = '?'
    · subst e
      rw [show spaceEnc '?' = ['?'] from rfl]
      simp [afterChar]
    · rw [afterChar_append_no '?' _ _ (spaceEnc_no_struct (by decide) c e), ih]
      rw [afterChar, if_neg e]

/-- Splitting at `&` commutes with space replacement. -/
theorem splitOnChar_rs : ∀ l : Chars,
    splitOnChar '&' (replaceSpaces l) = (splitOnChar '&' l).map replaceSpaces := by
  intro l
  induction l with
  | nil => rfl
  | cons c rest ih =>
    by_cases e : c = '&'
    · subst e
      rw [replaceSpaces_cons, show spaceEnc '&' = ['&'] from rfl, List.singleton_append,
        show ∀ m : Chars, splitOnChar '&' ('&' :: m) = [] :: splitOnChar '&' m from
          fun m => by simp [splitOnChar],
        ih]
      rfl
    · rw [replaceSpaces_cons,
        splitOnChar_append_no_sep '&' _ _ (spaceEnc_no_struct (by decide) c e),
        ih]
      cases hsp : splitOnChar '&' rest with
      | nil => exact absurd hsp (splitOnChar_ne_nil '&' rest)
      | cons r0 rt =>
        simp [splitOnChar, if_neg e, hsp, replaceSpaces_cons]

/-- Chunk keys commute with space replacement. -/
theorem paramKey_rs : ∀ ch : Chars, paramKey (replaceSpaces ch) = replaceSpaces (paramKey ch) := by
  intro ch
  induction ch with
  | nil => rfl
  | cons c rest ih =>
    rw [replaceSpaces_cons]
    by_cases e : c = '='
    · subst e
      rw [show spaceEnc '=' = ['='] from rfl]
      simp [paramKey, List.takeWhile_cons, replaceSpaces]
    · unfold paramKey at ih ⊢
      have hall : ∀ x ∈ spaceEnc c, (decide (x ≠ '=')) = true := by
        intro x hx
        simp only [decide_eq_true_eq, ne_eq]
        intro hx'
        subst hx'
        exact spaceEnc_no_struct (by decide) c e hx
      rw [takeWhile_all_append _ _ _ hall, ih, List.takeWhile_cons,
        if_pos (by simp [e]), replaceSpaces_cons]

/-- Chunk values commute with space replacement. -/
theorem paramVal_rs : ∀ ch : Chars, paramVal (replaceSpaces ch) = replaceSpaces (paramVal ch) := by
  intro ch
  induction ch with
  | nil => rfl
  | cons c rest ih =>
    rw [replaceSpaces_cons]
    by_cases e : c = '='
    · subst e
      rw [show spaceEnc '=' = ['='] from rfl]
      simp [paramVal, List.dropWhile_cons, replaceSpaces]
    · unfold paramVal at ih ⊢
      have hall : ∀ x ∈ spaceEnc c, (decide (x ≠ '=')) = true := by
        intro x hx
        simp only [decide_eq_true_eq, ne_eq]
        intro hx'
        subst hx'
        exact spaceEnc_no_struct (by decide) c e hx
      rw [dropWhile_all_append _ _ _ hall, ih, List.dropWhile_cons, if_pos (by simp [e])]

/-- Reading the parameters of a canonical URL recovers the pair list. -/
theorem queryParams_url (L : List (Chars × Chars)) (hL : L ≠ [])
    (hks : ∀ kv ∈ L, '&' ∉ kv.1 ∧ '=' ∉ kv.1) (hvs : ∀ kv ∈ L, '&' ∉ kv.2) :
    queryParams (urlLit ++ '?' :: multiQuery L) = L := by
  unfold queryParams
  rw [afterChar_append_no '?' urlLit _ (by decide),
    show afterChar '?' ('?' :: multiQuery L) = multiQuery L from by simp [afterChar],
    splitOnChar_multiQuery L hL (fun kv hkv => ⟨(hks kv hkv).1, hvs kv hkv⟩),
    List.map_map]
  have hone : ∀ kv ∈ L,
      ((fun chunk => (paramKey chunk, paramVal chunk)) ∘ fun kv => kv.1 ++ '=' :: kv.2) kv
        = id kv := by
    intro kv hkv
    simp [Function.comp, paramKey_pair _ _ (hks kv hkv).2, paramVal_pair _ _ (hks kv hkv).2]
  rw [List.map_congr_left hone, List.map_id]

/-- The `approval_prompt` entries of a space-replaced URL are the
space-replaced `approval_prompt` entries. -/
theorem approvalEntries_rs (u : Chars) :
    approvalEntries (replaceSpaces u) =
      (approvalEntries u).map (fun p => (replaceSpaces p.1, replaceSpaces p.2)) := by
  unfold approvalEntries queryParams
  rw [afterChar_rs, splitOnChar_rs, List.map_map]
  have hfun : ∀ ch ∈ splitOnChar '&' (afterChar '?' u),
      ((fun chunk => (paramKey chunk, paramVal chunk)) ∘ replaceSpaces) ch =
      ((fun p => (replaceSpaces p.1, replaceSpaces p.2)) ∘
        (fun chunk => (paramKey chunk, paramVal chunk))) ch := by
    intro ch _
    show (paramKey (replaceSpaces ch), paramVal (replaceSpaces ch)) = _
    rw [paramKey_rs, paramVal_rs]
    rfl
  rw [List.map_congr_left hfun, ← List.map_map, List.filter_map]
  congr 1
  refine List.filter_congr ?_
  intro p _
  show (replaceSpaces p.1 == apPat) = (p.1 == apPat)
  exact beq_rs_pat p.1

/-- The rendered query of clean pairs never contains `approval_prompt`. -/
theorem segIn_multiQuery_false : ∀ L : List (Chars × Chars),
    (∀ kv ∈ L, strContainsSeg apPat kv.1 = false ∧ strContainsSeg apPat kv.2 = false) →
    strContainsSeg apPat (multiQuery L) = false := by
  intro L
  induction L with
  | nil => intro _; rfl
  | cons kv rest ih =>
    intro h
    have hk := (h kv (List.mem_cons_self kv rest)).1
    have hv := (h kv (List.mem_cons_self kv rest)).2
    cases rest with
    | nil =>
      show strContainsSeg apPat (kv.1 ++ '=' :: kv.2) = false
      exact segIn_sep_split (by decide) (by decide) kv.1 kv.2 hk hv
    | cons r0 rt =>
      rw [multiQuery_cons _ _ (by simp)]
      exact segIn_sep_split (by decide) (by decide) _ _
        (segIn_sep_split (by decide) (by decide) kv.1 kv.2 hk hv)
        (ih (fun kv' hkv' => h kv' (List.mem_cons_of_mem _ hkv')))

/-- The `approval_prompt` entries of the options' query pairs: exactly the
forced entry when forced re-consent was requested, none otherwise. -/
theorem vectorize_filter_ap (o : AuthUrlOptionsBuilder) :
    o.vectorize.filter (fun kv => kv.1 == apPat) =
      (if o.force_prompt == some true then [(apPat, "force".toList)] else []) := by
  rcases o with ⟨_ | (_ | _), _ | _, _ | _, _ | (_ | _), _ | _, _ | _⟩ <;> rfl

/-- Keys of the options' query pairs carry no `&` or `=`. -/
theorem vectorize_entry_amp (o : AuthUrlOptionsBuilder) :
    ∀ kv ∈ o.vectorize, '&' ∉ kv.1 ∧ '=' ∉ kv.1 := by
  rcases o with ⟨_ | (_ | _), _ | _, _ | _, _ | (_ | _), _ | _, _ | _⟩ <;>
    simp [AuthUrlOptionsBuilder.vectorize]

/-- Without forced re-consent, no option key contains `approval_prompt`. -/
theorem vectorize_entry_props (o : AuthUrlOptionsBuilder) (hnf : o.force_prompt ≠ some true) :
    ∀ kv ∈ o.vectorize, '&' ∉ kv.1 ∧ '=' ∉ kv.1 ∧ strContainsSeg apPat kv.1 = false := by
  rcases o with ⟨_ | (_ | _), _ | _, _ | _, _ | (_ | _), _ | _, _ | _⟩ <;>
    first
    | exact absurd rfl hnf
    | (simp [AuthUrlOptionsBuilder.vectorize] <;> decide)

/-- Keys of the base query pairs: separator-free, never `approval_prompt`. -/
theorem baseParams_entry_keys (ac : AuthClient) (scope : ScopeBuilder) :
    ∀ kv ∈ baseParams ac scope,
      '&' ∉ kv.1 ∧ '=' ∉ kv.1 ∧ strContainsSeg apPat kv.1 = false ∧ (kv.1 == apPat) = false := by
  rcases ac with ⟨cid, csec, cred, _ | _⟩ <;>
    simp [baseParams, AuthClient.vectorize] <;> decide

/-- Values of the client's query pairs are clean when its fields are. -/
theorem acVectorize_vals (ac : AuthClient) (hid : cleanVal ac.client_id)
    (hsec : cleanVal ac.client_secret) (hred : cleanVal ac.redirect_uri) :
    ∀ kv ∈ ac.vectorize, strContainsSeg apPat kv.2 = false := by
  intro kv hkv
  unfold AuthClient.vectorize at hkv
  rcases List.mem_append.mp hkv with hkv | hkv
  · rcases List.mem_cons.mp hkv with rfl | hkv
    · exact hid
    rcases List.mem_cons.mp hkv with rfl | hkv
    · exact hsec
    rcases List.mem_cons.mp hkv with rfl | hkv
    · exact hred
    · exact absurd hkv (List.not_mem_nil kv)
  · by_cases htm : ac.test_mode
    · rw [if_pos htm] at hkv
      rcases List.mem_cons.mp hkv with rfl | hkv
      · decide
      · exact absurd hkv (List.not_mem_nil kv)
    · rw [if_neg htm] at hkv
      exact absurd hkv (List.not_mem_nil kv)

/-- Values of the base query pairs are clean under the cleanliness
hypotheses. -/
theorem baseParams_entry_vals (ac : AuthClient) (scope : ScopeBuilder)
    (hid : cleanVal ac.client_id) (hsec : cleanVal ac.client_secret)
    (hred : cleanVal ac.redirect_uri) (hscope : cleanVal scope.query_value) :
    ∀ kv ∈ baseParams ac scope, strContainsSeg apPat kv.2 = false := by
  intro kv hkv
  unfold baseParams at hkv
  rcases List.mem_cons.mp hkv with rfl | hkv
  · exact hscope
  rcases List.mem_cons.mp hkv with rfl | hkv
  · decide
  exact acVectorize_vals ac hid hsec hred kv hkv

/-- Appending the default prompt parameter, seen at the pair level. -/
theorem defaultAppend_eq (B : List (Chars × Chars)) (hB : B ≠ []) :
    (urlLit ++ '?' :: multiQuery B) ++ "&approval_prompt=auto".toList =
      urlLit ++ '?' :: multiQuery (B ++ [(apPat, "auto".toList)]) := by
  rw [multiQuery_append B _ hB (by simp),
    show multiQuery [((apPat : Chars), ("auto".toList : Chars))] = apPat ++ '=' :: "auto".toList
      from rfl,
    show ("&approval_prompt=auto".toList : Chars) = ['&'] ++ apPat ++ ['='] ++ "auto".toList
      from by decide]
  simp [List.append_assoc]

/-- The raw authorization URL in canonical pair-list form. -/
theorem authUrlRaw_canonical (ac : AuthClient) (scope : ScopeBuilder)
    (options : Option AuthUrlOptionsBuilder) :
    authUrlRaw ac scope options =
      (if strContainsSeg apPat (urlLit ++ '?' :: multiQuery (baseParams ac scope ++ optsVecOf options))
       then urlLit ++ '?' :: multiQuery (baseParams ac scope ++ optsVecOf options)
       else urlLit ++ '?' ::
         multiQuery ((baseParams ac scope ++ optsVecOf options) ++ [(apPat, "auto".toList)])) := by
  have hacv : ac.vectorize ≠ [] := by
    unfold AuthClient.vectorize
    cases ac.test_mode <;> simp
  have hbase : baseParams ac scope ≠ [] := by simp [baseParams]
  have h0 : get_connect_url ++ "/oauth/authorize?scope=".toList ++ scope.query_value ++
      "&response_type=code&".toList ++ multiQuery ac.vectorize =
      urlLit ++ '?' :: multiQuery (baseParams ac scope) := by
    unfold baseParams
    rw [multiQuery_cons _ _ (by simp), multiQuery_cons _ _ hacv,
      show (get_connect_url ++ "/oauth/authorize?scope=".toList : Chars) =
        urlLit ++ ['?'] ++ "scope".toList ++ ['='] from by decide,
      show ("&response_type=code&".toList : Chars) =
        ['&'] ++ "response_type".toList ++ ['='] ++ "code".toList ++ ['&'] from by decide]
    simp [List.append_assoc]
  have hsp : ("approval_prompt".toList : Chars) = apPat := rfl
  unfold authUrlRaw
  cases options with
  | none =>
    simp only [optsVecOf, List.append_nil]
    rw [h0, hsp]
    by_cases hc : strContainsSeg apPat (urlLit ++ '?' :: multiQuery (baseParams ac scope)) = true
    · rw [if_pos hc, if_pos hc]
    · rw [if_neg hc, if_neg hc]
      exact defaultAppend_eq (baseParams ac scope) hbase
  | some o =>
    simp only [optsVecOf]
    by_cases hov : o.vectorize = []
    · rw [if_neg (show ¬0 < (multiQuery o.vectorize).length from by rw [hov]; simp [multiQuery]),
        h0, hsp, hov, List.append_nil]
      by_cases hc : strContainsSeg apPat (urlLit ++ '?' :: multiQuery (baseParams ac scope)) = true
      · rw [if_pos hc, if_pos hc]
      · rw [if_neg hc, if_neg hc]
        exact defaultAppend_eq (baseParams ac scope) hbase
    · have hlen : 0 < (multiQuery o.vectorize).length := by
        cases hveq : o.vectorize with
        | nil => exact absurd hveq hov
        | cons kv rt =>
          exact List.length_pos.mpr (multiQuery_cons_ne kv rt)
      have hurl1 : (get_connect_url ++ "/oauth/authorize?scope=".toList ++ scope.query_value ++
          "&response_type=code&".toList ++ multiQuery ac.vectorize) ++
            '&' :: multiQuery o.vectorize =
          urlLit ++ '?' :: multiQuery (baseParams ac scope ++ o.vectorize) := by
        rw [h0, multiQuery_append _ _ hbase hov]
        simp [List.append_assoc]
      rw [if_pos hlen, hurl1, hsp]
      by_cases hc : strContainsSeg apPat
          (urlLit ++ '?' :: multiQuery (baseParams ac scope ++ o.vectorize)) = true
      · rw [if_pos hc, if_pos hc]
      · rw [if_neg hc, if_neg hc]
        exact defaultAppend_eq _ (by simp [baseParams])

/-- No chunk of a string free of the substring `approval_prompt` has
`approval_prompt` as its key: the key is a prefix of the chunk and the
chunk occurs inside the string. -/
theorem chunk_key_not_ap (v : Chars) (hv : strContainsSeg apPat v = false) :
    ∀ ch ∈ splitOnChar '&' v, (paramKey ch == apPat) = false := by
  intro ch hch
  cases hb : (paramKey ch == apPat) with
  | false => rfl
  | true =>
    exfalso
    have hkey : paramKey ch = apPat := eq_of_beq hb
    obtain ⟨x, y, hxy⟩ := splitOnChar_chunk_occurs '&' v ch hch
    have hch3 : ch = apPat ++ ch.dropWhile (fun c => c ≠ '=') := by
      rw [← hkey]
      unfold paramKey
      simp [List.takeWhile_append_dropWhile]
    obtain ⟨t, hct⟩ : ∃ t, ch = apPat ++ t := ⟨_, hch3⟩
    have hseg : strContainsSeg apPat v = true :=
      (segIn_iff apPat v).mpr ⟨x, t ++ y, by rw [hxy, hct]; simp [List.append_assoc]⟩
    rw [hv] at hseg
    exact Bool.noConfusion hseg

/-- The `approval_prompt` entries contributed by one rendered `key=value`
pair: the pair itself (with its value truncated at its first `&`) when the
key is `approval_prompt`, none otherwise — even when the value contains
`&`, since a stray chunk key would put the pattern inside the value. -/
theorem entry_filter_ap (kv : Chars × Chars) (hka : '&' ∉ kv.1) (hke : '=' ∉ kv.1)
    (hv : strContainsSeg apPat kv.2 = false) :
    ((splitOnChar '&' (kv.1 ++ '=' :: kv.2)).map
        (fun chunk => (paramKey chunk, paramVal chunk))).filter (fun p => p.1 == apPat) =
      if kv.1 == apPat then [(kv.1, (splitOnChar '&' kv.2).headD [])] else [] := by
  have hns : '&' ∉ kv.1 ++ ['='] := by
    intro hm
    rcases List.mem_append.mp hm with h | h
    · exact hka h
    · exact absurd (List.mem_singleton.mp h) (by decide)
  have hsplit : splitOnChar '&' (kv.1 ++ '=' :: kv.2) =
      (kv.1 ++ '=' :: (splitOnChar '&' kv.2).headD []) :: (splitOnChar '&' kv.2).tail := by
    have h := splitOnChar_append_no_sep '&' (kv.1 ++ ['=']) kv.2 hns
    simpa [List.append_assoc] using h
  have htail : ((splitOnChar '&' kv.2).tail.map
      (fun chunk => (paramKey chunk, paramVal chunk))).filter (fun p => p.1 == apPat) = [] := by
    rw [List.filter_eq_nil_iff]
    intro p hp
    rw [List.mem_map] at hp
    obtain ⟨ch, hch, rfl⟩ := hp
    have hch2 : ch ∈ splitOnChar '&' kv.2 := by
      cases hsp : splitOnChar '&' kv.2 with
      | nil => exact absurd hsp (splitOnChar_ne_nil '&' kv.2)
      | cons c0 ct =>
        rw [hsp] at hch
        simp only [List.tail_cons] at hch
        exact List.mem_cons_of_mem c0 hch
    simp [chunk_key_not_ap kv.2 hv ch hch2]
  have hhk : paramKey (kv.1 ++ '=' :: (splitOnChar '&' kv.2).headD []) = kv.1 :=
    paramKey_pair _ _ hke
  have hhv : paramVal (kv.1 ++ '=' :: (splitOnChar '&' kv.2).headD []) =
      (splitOnChar '&' kv.2).headD [] :=
    paramVal_pair _ _ hke
  rw [hsplit]
  simp only [List.map_cons, List.filter_cons, hhk, hhv, htail]

/-- The `approval_prompt` entries read back from a rendered query: exactly
the pairs whose key is `approval_prompt`, with values truncated at their
first `&`; values containing `&` or `=` contribute no spurious entry as
long as they avoid the substring `approval_prompt`. -/
theorem approval_filter_mq : ∀ L : List (Chars × Chars), L ≠ [] →
    (∀ kv ∈ L, ('&' ∉ kv.1 ∧ '=' ∉ kv.1) ∧ strContainsSeg apPat kv.2 = false) →
    ((splitOnChar '&' (multiQuery L)).map
        (fun chunk => (paramKey chunk, paramVal chunk))).filter (fun p => p.1 == apPat) =
      (L.filter (fun kv => kv.1 == apPat)).map
        (fun kv => (kv.1, (splitOnChar '&' kv.2).headD [])) := by
  intro L
  induction L with
  | nil => intro h; exact absurd rfl h
  | cons kv rest ih =>
    intro _ hcl
    have hk := (hcl kv (List.mem_cons_self kv rest)).1
    have hv := (hcl kv (List.mem_cons_self kv rest)).2
    cases rest with
    | nil =>
      rw [show multiQuery [kv] = kv.1 ++ '=' :: kv.2 from rfl, entry_filter_ap kv hk.1 hk.2 hv]
      by_cases hkey : (kv.1 == apPat) = true
      · simp [List.filter_cons, hkey]
      · simp [List.filter_cons, hkey]
    | cons r0 rt =>
      rw [multiQuery_cons _ _ (by simp),
        splitOnChar_sep_append '&' (kv.1 ++ '=' :: kv.2) _,
        List.map_append, List.filter_append, entry_filter_ap kv hk.1 hk.2 hv,
        ih (by simp) (fun kv' h' => hcl kv' (List.mem_cons_of_mem _ h'))]
      by_cases hkey : (kv.1 == apPat) = true
      · simp [List.filter_cons, hkey]
      · simp [List.filter_cons, hkey]

/-! ## Claims C4 and C8 — authorization URL -/

/-- C4 counterexample: with a `state` value equal to the string
`approval_prompt`, the default-prompt check is fooled by the substring match
and the URL carries NO `approval_prompt` parameter at all. -/
theorem c4_counterexample :
    approvalEntries (AuthClient.get_auth_url ⟨"i".toList, "s".toList, "r".toList, false⟩
      ScopeBuilder.new (some (AuthUrlOptionsBuilder.new.set_state "approval_prompt".toList))) =
      [] := by
  decide

/-- C4 amended: provided neither the client credentials, the scope string,
nor any option value contains the substring `approval_prompt`, the generated
URL contains exactly one `approval_prompt` query parameter, whose value is
`force` when forced re-consent was explicitly requested and `auto`
otherwise. -/
theorem c4_amended (ac : AuthClient) (scope : ScopeBuilder)
    (options : Option AuthUrlOptionsBuilder)
    (hid : cleanVal ac.client_id) (hsec : cleanVal ac.client_secret)
    (hred : cleanVal ac.redirect_uri) (hscope : cleanVal scope.query_value)
    (hopts : ∀ o, options = some o → ∀ kv ∈ o.vectorize, cleanVal kv.2) :
    approvalEntries (ac.get_auth_url scope options) =
      [(apPat, if optsForced options then "force".toList else "auto".toList)] := by
  have hbk := baseParams_entry_keys ac scope
  have hbv := baseParams_entry_vals ac scope hid hsec hred hscope
  have hov : ∀ kv ∈ optsVecOf options, cleanVal kv.2 := by
    cases options with
    | none => intro kv hkv; exact absurd hkv (List.not_mem_nil kv)
    | some o => exact hopts o rfl
  have hoamp : ∀ kv ∈ optsVecOf options, '&' ∉ kv.1 ∧ '=' ∉ kv.1 := by
    cases options with
    | none => intro kv hkv; exact absurd hkv (List.not_mem_nil kv)
    | some o => exact vectorize_entry_amp o
  have hbfilter : (baseParams ac scope).filter (fun kv => kv.1 == apPat) = [] := by
    rw [List.filter_eq_nil_iff]
    intro kv hkv
    simp [(hbk kv hkv).2.2.2]
  have hbne : baseParams ac scope ≠ [] := by simp [baseParams]
  cases hf : optsForced options with
  | true =>
    obtain ⟨o, rfl⟩ : ∃ o, options = some o := by
      cases options with
      | none => simp [optsForced] at hf
      | some o => exact ⟨o, rfl⟩
    have hfp : o.force_prompt = some true := by
      simpa [optsForced] using hf
    obtain ⟨T, hvec⟩ : ∃ T, o.vectorize = (apPat, "force".toList) :: T := by
      unfold AuthUrlOptionsBuilder.vectorize
      rw [hfp]
      exact ⟨_, rfl⟩
    have hcontain : strContainsSeg apPat
        (urlLit ++ '?' :: multiQuery (baseParams ac scope ++ optsVecOf (some o))) = true := by
      rw [show optsVecOf (some o) = o.vectorize from rfl, hvec,
        multiQuery_append _ _ hbne (by simp)]
      cases T with
      | nil =>
        rw [show multiQuery [((apPat : Chars), ("force".toList : Chars))] =
          apPat ++ '=' :: "force".toList from rfl]
        refine (segIn_iff apPat _).mpr
          ⟨urlLit ++ '?' :: (multiQuery (baseParams ac scope) ++ ['&']),
           '=' :: "force".toList, ?_⟩
        simp [List.append_assoc]
      | cons t0 ts =>
        rw [multiQuery_cons _ _ (by simp)]
        refine (segIn_iff apPat _).mpr
          ⟨urlLit ++ '?' :: (multiQuery (baseParams ac scope) ++ ['&']),
           '=' :: ("force".toList ++ '&' :: multiQuery (t0 :: ts)), ?_⟩
        simp [List.append_assoc]
    have hprops : ∀ kv ∈ baseParams ac scope ++ optsVecOf (some o),
        ('&' ∉ kv.1 ∧ '=' ∉ kv.1) ∧ strContainsSeg apPat kv.2 = false := by
      intro kv hkv
      rcases List.mem_append.mp hkv with h | h
      · exact ⟨⟨(hbk kv h).1, (hbk kv h).2.1⟩, hbv kv h⟩
      · exact ⟨hoamp kv h, hov kv h⟩
    unfold AuthClient.get_auth_url
    rw [authUrlRaw_canonical, if_pos hcontain, approvalEntries_rs]
    unfold approvalEntries queryParams
    rw [afterChar_append_no '?' urlLit _ (by decide),
      show afterChar '?' ('?' :: multiQuery (baseParams ac scope ++ optsVecOf (some o))) =
        multiQuery (baseParams ac scope ++ optsVecOf (some o)) from by simp [afterChar],
      approval_filter_mq _ (by simp [baseParams]) hprops,
      List.filter_append, hbfilter,
      show optsVecOf (some o) = o.vectorize from rfl, vectorize_filter_ap o,
      show (o.force_prompt == some true) = true from by simp [hfp]]
    decide
  | false =>
    have hono : ∀ kv ∈ optsVecOf options,
        strContainsSeg apPat kv.1 = false ∧ '&' ∉ kv.1 ∧ '=' ∉ kv.1 := by
      cases options with
      | none => intro kv hkv; exact absurd hkv (List.not_mem_nil kv)
      | some o =>
        have hnf : o.force_prompt ≠ some true := by
          intro he
          rw [show optsForced (some o) = (o.force_prompt == some true) from rfl, he] at hf
          simp at hf
        intro kv hkv
        obtain ⟨h1, h2, h3⟩ := vectorize_entry_props o hnf kv hkv
        exact ⟨h3, h1, h2⟩
    have hnc : ¬strContainsSeg apPat
        (urlLit ++ '?' :: multiQuery (baseParams ac scope ++ optsVecOf options)) = true := by
      rw [segIn_sep_split (by decide) (by decide) urlLit _ (by decide)
        (segIn_multiQuery_false _ (fun kv hkv => by
          rcases List.mem_append.mp hkv with h | h
          · exact ⟨(hbk kv h).2.2.1, hbv kv h⟩
          · exact ⟨(hono kv h).1, hov kv h⟩))]
      simp
    have hprops : ∀ kv ∈ (baseParams ac scope ++ optsVecOf options) ++ [(apPat, "auto".toList)],
        ('&' ∉ kv.1 ∧ '=' ∉ kv.1) ∧ strContainsSeg apPat kv.2 = false := by
      intro kv hkv
      rcases List.mem_append.mp hkv with h | h
      · rcases List.mem_append.mp h with h2 | h2
        · exact ⟨⟨(hbk kv h2).1, (hbk kv h2).2.1⟩, hbv kv h2⟩
        · exact ⟨⟨(hono kv h2).2.1, (hono kv h2).2.2⟩, hov kv h2⟩
      · rcases List.mem_cons.mp h with rfl | h2
        · exact ⟨⟨by decide, by decide⟩, by decide⟩
        · exact absurd h2 (List.not_mem_nil kv)
    have hofilter : (optsVecOf options).filter (fun kv => kv.1 == apPat) = [] := by
      cases options with
      | none => rfl
      | some o =>
        have hb : (o.force_prompt == some true) = false := by
          simpa [optsForced] using hf
        rw [show optsVecOf (some o) = o.vectorize from rfl, vectorize_filter_ap o, hb]
        rfl
    unfold AuthClient.get_auth_url
    rw [authUrlRaw_canonical, if_neg hnc, approvalEntries_rs]
    unfold approvalEntries queryParams
    rw [afterChar_append_no '?' urlLit _ (by decide),
      show afterChar '?' ('?' :: multiQuery
            ((baseParams ac scope ++ optsVecOf options) ++ [(apPat, "auto".toList)])) =
        multiQuery ((baseParams ac scope ++ optsVecOf options) ++ [(apPat, "auto".toList)])
        from by simp [afterChar],
      approval_filter_mq _ (by simp) hprops,
      List.filter_append, List.filter_append, hbfilter, hofilter]
    decide

/-- C4 witness. -/
theorem c4_amended_witness :
    approvalEntries (AuthClient.get_auth_url ⟨"i".toList, "s".toList, "r".toList, false⟩
        ScopeBuilder.new none) =
      [(apPat, if optsForced none then "force".toList else "auto".toList)] :=
  c4_amended ⟨"i".toList, "s".toList, "r".toList, false⟩ ScopeBuilder.new none
    (by decide) (by decide) (by decide) (by decide) (fun o h => nomatch h)

/-- C8: the generated authorization URL contains no literal space; it is the
raw URL with every space percent-encoded as `%20`. -/
theorem c8_no_space (ac : AuthClient) (scope : ScopeBuilder)
    (options : Option AuthUrlOptionsBuilder) :
    ' ' ∉ AuthClient.get_auth_url ac scope options
    ∧ AuthClient.get_auth_url ac scope options = replaceSpaces (authUrlRaw ac scope options) :=
  ⟨replaceSpaces_no_space _, rfl⟩

end Smartcar
